import Mathlib

/-!
Verification of the decision-support scoring engine.

This file gives a shallow embedding of the engine found in the repository
(`lib/scoring.js`, `lib/analysis.js`, `lib/utils.js`, and the API pipeline
`processComparison`) and proves properties about it.

Modelling conventions:
* JavaScript numbers are idealised as exact rationals (`ℚ`); `NaN` is
  modelled by `Option ℚ` with `none` playing the role of `NaN` (the engine
  never produces `Infinity`: every division in it is guarded by a positive
  divisor).  Arithmetic on `Option ℚ` propagates `none` exactly as JS
  arithmetic propagates `NaN`, and every comparison with `none` is false,
  as in JS.
* JSON values (the `features` payloads) are modelled by the inductive
  `JSON` below.  `JSON.nan` is a number-typed `NaN` (it can appear inside
  `normalizedFeatures` after normalisation; parsed input never contains it).
* `Math.round x` is `⌊x + 1/2⌋` (round half towards +∞), which is JS
  behaviour; `roundToDecimals x 2` is `Math.round (100 x) / 100`.
* `Array.prototype.sort` with comparator `(a, b) => key b - key a` is
  modelled by `List.insertionSort` with the relation "comparator result
  ≤ 0" (`none`, i.e. NaN, is treated as 0 per ES SortCompare).  For a
  consistent comparator the ECMAScript specification fixes the result of
  the (stable) sort uniquely, so any stable sort is a faithful model.
-/

/-!
Arithmetic is computed on numerator/denominator pairs through `mkRat`
(`qAdd`, `qMul`, ...), which both evaluators reduce; they are proved equal
to the Mathlib operations below (`qAdd_eq`, ...), which the analytical
proofs use.
-/

/-- Rational addition computed via `mkRat` (equal to `a + b`). -/
def qAdd (a b : ℚ) : ℚ := mkRat (a.num * b.den + b.num * a.den) (a.den * b.den)

/-- Rational negation computed via `mkRat` (equal to `-a`). -/
def qNeg (a : ℚ) : ℚ := mkRat (-a.num) a.den

/-- Rational subtraction computed via `mkRat` (equal to `a - b`). -/
def qSub (a b : ℚ) : ℚ := mkRat (a.num * b.den - b.num * a.den) (a.den * b.den)

/-- Rational multiplication computed via `mkRat` (equal to `a * b`). -/
def qMul (a b : ℚ) : ℚ := mkRat (a.num * b.num) (a.den * b.den)

/-- Rational inverse computed via `mkRat` (equal to `a⁻¹`; 0 ↦ 0). -/
def qInv (a : ℚ) : ℚ :=
  if a.num < 0 then mkRat (-(a.den : ℤ)) a.num.natAbs else mkRat a.den a.num.natAbs

/-- Rational division (equal to `a / b`; division by 0 gives 0, a case the
engine's guards never reach). -/
def qDiv (a b : ℚ) : ℚ := qMul a (qInv b)

/-- `a ≤ b` as a boolean, by cross-multiplication. -/
def qLeB (a b : ℚ) : Bool := decide (a.num * b.den ≤ b.num * a.den)

/-- `a < b` as a boolean, by cross-multiplication. -/
def qLtB (a b : ℚ) : Bool := decide (a.num * b.den < b.num * a.den)

/-- `min` (equal to `min a b`). -/
def qMinQ (a b : ℚ) : ℚ := if qLeB a b then a else b

/-- `max` (equal to `max a b`). -/
def qMaxQ (a b : ℚ) : ℚ := if qLeB a b then b else a

/-- `|a|` (equal to `|a|`). -/
def qAbs (a : ℚ) : ℚ := mkRat a.num.natAbs a.den

/-- `⌊q⌋` computed by flooring integer division. -/
def qFloor (q : ℚ) : ℤ := Int.fdiv q.num q.den

/-- Round half towards +∞, i.e. JavaScript `Math.round`. -/
def jsRoundQ (q : ℚ) : ℤ := qFloor (qAdd q (mkRat 1 2))

/-- `roundToDecimals num 2` from `lib/utils.js`: `Math.round (num * 100) / 100`. -/
def roundToDecimals2 (q : ℚ) : ℚ := mkRat (jsRoundQ (qMul q (mkRat 100 1))) 100

/-- `roundToDecimals num 1`: `Math.round (num * 10) / 10`. -/
def roundToDecimals1 (q : ℚ) : ℚ := mkRat (jsRoundQ (qMul q (mkRat 10 1))) 10

/-- Numbers-with-NaN: `none` is NaN. Addition (NaN propagates). -/
def jsAdd (a b : Option ℚ) : Option ℚ := Option.bind a (fun x => Option.map (qAdd x) b)

/-- Subtraction on numbers-with-NaN. -/
def jsSub (a b : Option ℚ) : Option ℚ := Option.bind a (fun x => Option.map (qSub x) b)

/-- Multiplication on numbers-with-NaN. -/
def jsMul (a b : Option ℚ) : Option ℚ := Option.bind a (fun x => Option.map (qMul x) b)

/-- `Math.round` lifted to numbers-with-NaN (`Math.round NaN = NaN`). -/
def jsRound2 (a : Option ℚ) : Option ℚ := a.map roundToDecimals2

/-- `roundToDecimals · 1` lifted to numbers-with-NaN. -/
def jsRound1 (a : Option ℚ) : Option ℚ := a.map roundToDecimals1

/-- `a < b` on numbers-with-NaN: any comparison involving NaN is false. -/
def jsLtB (a b : Option ℚ) : Bool :=
  match a, b with
  | some x, some y => qLtB x y
  | _, _ => false

/-- `a <= b` on numbers-with-NaN. -/
def jsLeB (a b : Option ℚ) : Bool :=
  match a, b with
  | some x, some y => qLeB x y
  | _, _ => false

/-- `a > b` on numbers-with-NaN. -/
def jsGtB (a b : Option ℚ) : Bool := jsLtB b a

/-- `a >= b` on numbers-with-NaN. -/
def jsGeB (a b : Option ℚ) : Bool := jsLeB b a

/-- `Math.min` on numbers-with-NaN: NaN if either argument is NaN. -/
def jsMin (a b : Option ℚ) : Option ℚ :=
  match a, b with
  | some x, some y => some (qMinQ x y)
  | _, _ => none

/-- `Math.max` on numbers-with-NaN. -/
def jsMax (a b : Option ℚ) : Option ℚ :=
  match a, b with
  | some x, some y => some (qMaxQ x y)
  | _, _ => none

/-- `Math.abs` on numbers-with-NaN. -/
def jsAbs (a : Option ℚ) : Option ℚ := a.map qAbs

/-- JSON values, as delivered by `JSON.parse` on a request body, extended
with `nan`, which the engine can create internally (never present in parsed
input).  Objects are insertion-ordered association lists, matching the
enumeration order of string-keyed JavaScript objects as produced by
`JSON.parse` errors aside. -/
inductive JSON where
  | num  (q : ℚ)
  | nan
  | bool (b : Bool)
  | str  (s : String)
  | null
  | arr  (elems : List JSON)
  | obj  (fields : List (String × JSON))
  deriving Repr

/-- Insert-or-overwrite on an insertion-ordered association list: JavaScript
`o[k] = v` keeps the position of an existing key and appends a fresh one. -/
def upsert (l : List (String × α)) (k : String) (v : α) : List (String × α) :=
  match l with
  | [] => [(k, v)]
  | (k', v') :: rest => if k' = k then (k, v) :: rest else (k', v') :: upsert rest k v

/-- First-match lookup in an insertion-ordered association list (JavaScript
property read; keys are unique in every list the engine builds). -/
def lookupField (l : List (String × α)) (k : String) : Option α :=
  match l with
  | [] => none
  | (k', v) :: rest => if k' = k then some v else lookupField rest k

/-- Decimal digits of a numeral string. -/
def digitsVal : List Char → Option ℕ
  | [] => none
  | [c] => if c.isDigit then some (c.toNat - '0'.toNat) else none
  | c :: rest => do
      let hd ← if c.isDigit then some (c.toNat - '0'.toNat) else none
      let tl ← digitsVal rest
      pure (hd * 10 ^ rest.length + tl)

/-- Splitting a dotted path (`String.prototype.split('.')` semantics on
the character list; structurally recursive). -/
def splitDotChars : List Char → List (List Char)
  | [] => [[]]
  | c :: rest =>
      if c = '.' then [] :: splitDotChars rest
      else
        match splitDotChars rest with
        | g :: gs => (c :: g) :: gs
        | [] => [[c]]

/-- `path.split('.')` as strings. -/
def splitDot (s : String) : List String := (splitDotChars s.data).map String.mk

/-- ASCII lower-casing of one character (all strings the engine lower-cases
are ASCII; `toLowerCase` agrees there). -/
def asciiLowerChar (c : Char) : Char :=
  if 'A' ≤ c ∧ c ≤ 'Z' then Char.ofNat (c.toNat + 32) else c

/-- ASCII lower-casing of a string. -/
def asciiLower (s : String) : String := String.mk (s.data.map asciiLowerChar)

/-- Whitespace trim on both ends (JS `String.prototype.trim`). -/
def trimWs (s : String) : String :=
  String.mk (((s.data.dropWhile Char.isWhitespace).reverse.dropWhile Char.isWhitespace).reverse)

/-- Canonical decimal numeral parse of a string key (`none` unless the key
is exactly the decimal numeral of a natural number, e.g. "0", "17"). -/
def canonicalIndex (k : String) : Option ℕ :=
  match digitsVal k.data with
  | some i => if toString i = k then some i else none
  | none => none

/-- Array indexing by a string key, as JavaScript property access does it:
`"length"` reads the length, a canonical numeric string reads the element,
anything else is `undefined` (parsed-JSON arrays carry no other keys). -/
def arrIndex (xs : List JSON) (k : String) : Option JSON :=
  if k = "length" then some (JSON.num (mkRat xs.length 1))
  else
    match canonicalIndex k with
    | some i => xs.get? i
    | none => none

/-- One `reduce` pass of `getNestedValue` from `lib/utils.js`:
`current && typeof current === 'object' ? current[key] : undefined`
(`null` is falsy, primitives are not objects). -/
def getPath : Option JSON → List String → Option JSON
  | cur, [] => cur
  | some (JSON.obj fields), k :: rest => getPath (lookupField fields k) rest
  | some (JSON.arr xs), k :: rest => getPath (arrIndex xs k) rest
  | _, _ :: _ => none

/-- `getNestedValue obj path` from `lib/utils.js`; `none` is `undefined`.
An empty path is falsy in JS and yields `undefined`. -/
def getNestedValue (v : JSON) (path : String) : Option JSON :=
  if path = "" then none else getPath (some v) (splitDot path)

/-- Writing one key into a container, as `target[lastKey] = value` behaves:
objects upsert; arrays replace an existing index (the engine only ever
overwrites paths that already exist, so the array-extension and
named-property-on-array corners, which the engine never reaches, are
modelled as no-ops); writes into primitives do not happen (navigation
always hands over a container). -/
def writeChild (v : JSON) (k : String) (x : JSON) : JSON :=
  match v with
  | JSON.obj fields => JSON.obj (upsert fields k x)
  | JSON.arr xs =>
      (match canonicalIndex k with
       | some i => if i < xs.length then JSON.arr (xs.set i x) else JSON.arr xs
       | none => JSON.arr xs)
  | other => other

/-- Raw child read used while navigating in `setNestedValue`. -/
def rawChild (v : JSON) (k : String) : Option JSON :=
  match v with
  | JSON.obj fields => lookupField fields k
  | JSON.arr xs => arrIndex xs k
  | _ => none

/-- `setNestedValue`'s navigation step: a falsy or non-object child is
replaced by a fresh `{}` before descending. -/
def childOrFresh (c : Option JSON) : JSON :=
  match c with
  | some (JSON.obj fields) => JSON.obj fields
  | some (JSON.arr xs) => JSON.arr xs
  | _ => JSON.obj []

/-- The recursive core of `setNestedValue` (functional rendering of the
in-place mutation; after the deep clone the structure is unaliased, so the
rebuild computes the same result). -/
def setPath (v : JSON) (keys : List String) (x : JSON) : JSON :=
  match keys with
  | [] => v
  | [k] => writeChild v k x
  | k :: rest => writeChild v k (setPath (childOrFresh (rawChild v k)) rest x)

/-- `setNestedValue obj path value` from `lib/utils.js`: a non-object root
or an empty path is a no-op. -/
def setNestedValue (v : JSON) (path : String) (x : JSON) : JSON :=
  match v with
  | JSON.obj _ => if path = "" then v else setPath v (splitDot path) x
  | JSON.arr _ => if path = "" then v else setPath v (splitDot path) x
  | _ => v

/-- Value of the two sides of a decimal point: `intDigits`, `fracDigits`. -/
def decimalVal (ip fp : List Char) : Option ℚ :=
  match ip, fp with
  | [], [] => none
  | ip, [] => (digitsVal ip).map (fun n => mkRat n 1)
  | [], fp => (digitsVal fp).map (fun n => mkRat n (10 ^ fp.length))
  | ip, fp => do
      let i ← digitsVal ip
      let f ← digitsVal fp
      pure (qAdd (mkRat i 1) (mkRat f (10 ^ fp.length)))

/-- `Number(string)` for the decimal forms that occur in practice: optional
sign, digits with at most one decimal point, optional decimal exponent.
The whitespace-only string coerces to 0.  (Hex, `Infinity` and other exotic
forms, which the repository's data never uses, coerce to NaN here.) -/
def parseNumber (s : String) : Option ℚ :=
  let t := trimWs s
  if t = "" then some (mkRat 0 1)
  else
    let chars := t.data
    let (sgn, rest) :=
      match chars with
      | '+' :: cs => (mkRat 1 1, cs)
      | '-' :: cs => (mkRat (-1) 1, cs)
      | cs => (mkRat 1 1, cs)
    let (mant, expPart) :=
      match (List.splitOnP (fun c => c = 'e' ∨ c = 'E') rest : List (List Char)) with
      | [m] => (m, some ([] : List Char))
      | [m, e] => (m, some e)
      | _ => ([], none)
    match expPart with
    | none => none
    | some e =>
      let mval :=
        match (List.splitOnP (fun c => c = '.') mant : List (List Char)) with
        | [ip] => decimalVal ip []
        | [ip, fp] => decimalVal ip fp
        | _ => none
      let eval : Option ℤ :=
        if e = [] then some 0
        else
          match e with
          | '+' :: ds => (digitsVal ds).map (fun n => (n : ℤ))
          | '-' :: ds => (digitsVal ds).map (fun n => -(n : ℤ))
          | ds => (digitsVal ds).map (fun n => (n : ℤ))
      match mval, eval with
      | some m, some ex =>
          some (qMul (qMul sgn m)
            (if 0 ≤ ex then mkRat (10 ^ ex.toNat) 1 else mkRat 1 (10 ^ (-ex).toNat)))
      | _, _ => none

/-- `Number(value)` on a JSON value; `none` is NaN.  A one-element array
coerces through its element (`Number([x]) = Number(String([x]))`, which for
the primitive payloads that occur agrees with coercing the element). -/
def jsToNumber : JSON → Option ℚ
  | JSON.num q => some q
  | JSON.nan => none
  | JSON.bool b => some (if b then mkRat 1 1 else mkRat 0 1)
  | JSON.null => some (mkRat 0 1)
  | JSON.str s => parseNumber s
  | JSON.arr [] => some (mkRat 0 1)
  | JSON.arr [x] => jsToNumber x
  | JSON.arr (_ :: _ :: _) => none
  | JSON.obj _ => none

/-- Strict equality `===` on the values the engine compares.  NaN is not
equal to itself; objects and arrays compare by reference, and the two
operands always come from unrelated parses, so they compare unequal. -/
def jsStrictEq (a b : JSON) : Bool :=
  match a, b with
  | JSON.num x, JSON.num y => decide (x = y)
  | JSON.str x, JSON.str y => decide (x = y)
  | JSON.bool x, JSON.bool y => decide (x = y)
  | JSON.null, JSON.null => true
  | _, _ => false

/-- SameValueZero, used by `Array.prototype.includes`: like `===` but NaN
matches NaN. -/
def sameValueZero (a b : JSON) : Bool :=
  match a, b with
  | JSON.nan, JSON.nan => true
  | x, y => jsStrictEq x y

/-- Left-pad a numeral string with zeros up to the given length. -/
def padLeftZeros (s : String) (n : ℕ) : String :=
  if s.data.length ≥ n then s else String.mk (List.replicate (n - s.data.length) '0') ++ s

/-- Drop trailing zero characters (used when trimming a fraction part). -/
def stripTrailingZeros (s : String) : String :=
  String.mk (s.data.reverse.dropWhile (fun c => c = '0')).reverse

/-- Smallest `k ≤ fuel` with `q * 10 ^ k` integral, if any. -/
def decDigitsFuel : ℕ → ℚ → Option ℕ
  | 0, q => if q.den = 1 then some 0 else none
  | f + 1, q => if q.den = 1 then some 0 else (decDigitsFuel f (qMul q (mkRat 10 1))).map (· + 1)

/-- Rendering of a JavaScript number by `String(·)` / template literals:
the exact minimal decimal expansion when it terminates (which covers every
value the repository's data produces); rationals without a terminating
expansion — where the engine's double would already be inexact — are
approximated with 17 fractional digits. -/
def ratToDecimalString (q : ℚ) : String :=
  if q.num = 0 then "0"
  else
    let neg := q.num < 0
    let a := qAbs q
    let core :=
      match decDigitsFuel 64 a with
      | some k =>
          let m := (qMul a (mkRat (10 ^ k) 1)).num.toNat
          if k = 0 then toString m
          else
            let s := padLeftZeros (toString m) (k + 1)
            let cut := s.data.length - k
            String.mk (s.data.take cut) ++ "." ++ String.mk (s.data.drop cut)
      | none =>
          let m := (jsRoundQ (qMul a (mkRat (10 ^ 17) 1))).toNat
          let s := padLeftZeros (toString m) 18
          let cut := s.data.length - 17
          let frac := stripTrailingZeros (String.mk (s.data.drop cut))
          String.mk (s.data.take cut) ++ (if frac = "" then "" else "." ++ frac)
    if neg then "-" ++ core else core

/-- Thousands grouping of a reversed digit list. -/
def group3 : List Char → List Char
  | d1 :: d2 :: d3 :: rest@(_ :: _) => d1 :: d2 :: d3 :: ',' :: group3 rest
  | l => l

/-- Insert `en-US` thousands separators into a plain numeral string. -/
def insertCommas (s : String) : String := String.mk ((group3 s.data.reverse).reverse)

/-- `Number.prototype.toLocaleString` under the `en-US` default options:
thousands grouping, at most three fraction digits (half away from zero),
trailing fraction zeros trimmed. -/
def toLocaleStringQ (q : ℚ) : String :=
  let m := (jsRoundQ (qMul (qAbs q) (mkRat 1000 1))).toNat
  if m = 0 then "0"
  else
    let i := m / 1000
    let f := m % 1000
    let intPart := insertCommas (toString i)
    let fracPart := if f = 0 then "" else "." ++ stripTrailingZeros (padLeftZeros (toString f) 3)
    (if q.num < 0 then "-" else "") ++ intPart ++ fracPart

/-- `Number.prototype.toFixed d` (round half towards +∞ on the exact
rational, matching the JS specification applied to the idealised value). -/
def jsToFixed (q : ℚ) (d : ℕ) : String :=
  let m := jsRoundQ (qMul q (mkRat (10 ^ d) 1))
  let neg := m < 0
  let n := m.natAbs
  let core :=
    if d = 0 then toString n
    else
      let s := padLeftZeros (toString n) (d + 1)
      let cut := s.data.length - d
      String.mk (s.data.take cut) ++ "." ++ String.mk (s.data.drop cut)
  (if neg then "-" else "") ++ core

/-- `Math.round(q).toLocaleString()` for the ≥100 display branch. -/
def roundLocaleQ (q : ℚ) : String :=
  let r := jsRoundQ q
  (if r < 0 then "-" else "") ++ insertCommas (toString r.natAbs)

mutual
/-- `String(value)` on a JSON value (`Array.prototype.toString` joins the
stringified elements with commas, rendering `null` as the empty string). -/
def jsToString : JSON → String
  | JSON.num q => ratToDecimalString q
  | JSON.nan => "NaN"
  | JSON.bool true => "true"
  | JSON.bool false => "false"
  | JSON.str s => s
  | JSON.null => "null"
  | JSON.obj _ => "[object Object]"
  | JSON.arr xs => String.intercalate "," (jsToStringList xs)
/-- Elementwise stringification for array joining. -/
def jsToStringList : List JSON → List String
  | [] => []
  | v :: rest => (match v with | JSON.null => "" | w => jsToString w) :: jsToStringList rest
end

/-- `needle` occurring as a substring of `hay` (`String.prototype.includes`). -/
def containsSub (needle hay : String) : Bool :=
  hay.data.tails.any (fun t => needle.data.isPrefixOf t)

/-- A constraint record: `required` is `none` when absent (JS `undefined`);
the code gates on `required !== false`. -/
structure Constraint where
  criteria : String
  operator : String
  value : JSON
  required : Option Bool := none

/-- A priority record (validated upstream: weight ∈ [0,1], optimization is
`minimize` or `maximize`). -/
structure Priority where
  criteria : String
  weight : ℚ
  optimization : String

/-- Engine settings; only `max_results` influences the scoring engine. -/
structure Settings where
  max_results : Option ℕ := none

/-- `constraint.required !== false`. -/
def requiredB (c : Constraint) : Bool :=
  match c.required with
  | some false => false
  | _ => true

/-- Per-constraint explanation record built by `generateConstraintReason`. -/
structure ConstraintReason where
  criteria : String
  status : String
  explanation : String
  required : Bool
  actualValue : Option JSON
  constraintValue : JSON
  operator : String

/-- Per-option compliance report. -/
structure ComplianceResult where
  passed : Bool
  failedConstraints : List String
  constraintReasons : List ConstraintReason

/-- An option as the engine sees it (validated upstream); the compliance
field is attached by `applyConstraints` and absent on raw input. -/
structure EOption where
  id : String
  name : String
  features : JSON
  constraintCompliance : Option ComplianceResult := none

/-- Descriptive statistics per criterion (`calculateCriteriaStatistics`). -/
structure Stats where
  min : ℚ
  max : ℚ
  avg : ℚ
  median : ℚ
  count : ℕ

/-- Min/max/range per criterion (`normalizeOptionValues`). -/
structure RangeInfo where
  min : ℚ
  max : ℚ
  range : ℚ

/-- An option together with its `normalizedFeatures` clone. -/
structure NOption where
  base : EOption
  normalizedFeatures : JSON

/-- The `details` sub-record of a scoring reason. -/
structure ReasonDetails where
  rawValue : JSON
  formattedValue : String
  score : Option ℚ
  performanceLevel : String
  comparison : String
  weightPercentage : ℤ

/-- A scoring reason; missing-data reasons carry no `details`. -/
structure Reason where
  criteria : String
  status : String
  explanation : String
  details : Option ReasonDetails
  impact : String
  weightContribution : Option ℚ

/-- Entry of the `criteriaScores` map. -/
structure CriterionScore where
  score : Option ℚ
  normalizedValue : JSON
  rawValue : JSON

/-- Trade-off annotation produced by `analyzeOptionTradeOffs`. -/
structure TradeOffs where
  strengths : List String
  weaknesses : List String
  keyDifferentiators : List String

/-- A scored option (`calculateWeightedScores` output); `tradeOffs` is
attached only by `generateTradeOffAnalysis`. -/
structure ScoredOption where
  optionId : String
  name : String
  totalScore : Option ℚ
  criteriaScores : List (String × CriterionScore)
  reasons : List Reason
  constraintCompliance : ComplianceResult
  tradeOffs : Option TradeOffs := none

/-- A ranked option: a scored option plus its 1-based `rank`. -/
structure RankedOption where
  score : ScoredOption
  rank : ℕ

/-- The `summary` block of the scoring-engine result. -/
structure ScoreSummary where
  totalOptionsEvaluated : ℕ
  optionsMeetingConstraints : ℕ
  topRecommendation : Option RankedOption

/-- Result of `scoreOptions`. -/
structure ScoreResults where
  rankedOptions : List RankedOption
  summary : ScoreSummary
  constraintResults : List (String × ComplianceResult)

/-- `evaluateConstraint` from `lib/scoring.js`. -/
def evaluateConstraint (o : EOption) (c : Constraint) : Bool :=
  match getNestedValue o.features c.criteria with
  | none => false
  | some JSON.null => false
  | some v =>
    match c.operator with
    | "lt" => jsLtB (jsToNumber v) (jsToNumber c.value)
    | "lte" => jsLeB (jsToNumber v) (jsToNumber c.value)
    | "gt" => jsGtB (jsToNumber v) (jsToNumber c.value)
    | "gte" => jsGeB (jsToNumber v) (jsToNumber c.value)
    | "eq" => jsStrictEq v c.value
    | "neq" => !jsStrictEq v c.value
    | "in" =>
        (match c.value with
         | JSON.arr xs => xs.any (fun x => sameValueZero x v)
         | _ => false)
    | "contains" => containsSub (asciiLower (jsToString c.value)) (asciiLower (jsToString v))
    | _ => false

/-- The operator wording table of `generateConstraintReason` (an unknown
operator falls back to its own name). -/
def operatorText (op : String) : String :=
  match op with
  | "lt" => "less than"
  | "lte" => "less than or equal to"
  | "gt" => "greater than"
  | "gte" => "greater than or equal to"
  | "eq" => "equal to"
  | "neq" => "not equal to"
  | "in" => "one of"
  | "contains" => "containing"
  | other => other

/-- Numeric display formatting inside `formatDisplayValue` (the argument is
a JS number, possibly NaN). -/
def formatNumericDisplay (x : Option ℚ) (criteria : String) : String :=
  if containsSub "cost" criteria || containsSub "price" criteria then
    "$" ++ (match x with | some q => jsToFixed q 3 | none => "NaN")
  else if containsSub "percent" criteria || containsSub "reliability" criteria
          || containsSub "uptime" criteria then
    (match x with | some q => ratToDecimalString q | none => "NaN") ++ "%"
  else if containsSub "performance" criteria || containsSub "iops" criteria then
    (match x with | some q => toLocaleStringQ q | none => "NaN")
  else if jsLtB x (some (mkRat 1 1)) then
    (match x with | some q => jsToFixed q 3 | none => "NaN")
  else if jsLtB x (some (mkRat 100 1)) then
    (match x with | some q => jsToFixed q 1 | none => "NaN")
  else
    (match x with | some q => roundLocaleQ q | none => "NaN")

/-- `formatDisplayValue` from `lib/scoring.js`; `none` is an `undefined`
actual value (rendered by `String(undefined)`). -/
def formatDisplayValue (value : Option JSON) (criteria : String) : String :=
  match value with
  | some (JSON.num q) => formatNumericDisplay (some q) criteria
  | some JSON.nan => formatNumericDisplay none criteria
  | some v => jsToString v
  | none => "undefined"

/-- `generateConstraintReason` from `lib/scoring.js`. -/
def generateConstraintReason (o : EOption) (c : Constraint) (passes : Bool) : ConstraintReason :=
  let value := getNestedValue o.features c.criteria
  let formattedValue := formatDisplayValue value c.criteria
  let formattedConstraintValue := formatDisplayValue (some c.value) c.criteria
  let op := operatorText c.operator
  let status := if passes then "passed" else "failed"
  let requiredText := if requiredB c then "required" else "optional"
  let explanation :=
    match value with
    | none =>
        o.name ++ " has no " ++ c.criteria ++ " data available for " ++ requiredText ++ " constraint"
    | some JSON.null =>
        o.name ++ " has no " ++ c.criteria ++ " data available for " ++ requiredText ++ " constraint"
    | some _ =>
        o.name ++ " " ++ c.criteria ++ " (" ++ formattedValue ++ ") "
          ++ (if passes then "meets" else "does not meet") ++ " the " ++ requiredText
          ++ " requirement of being " ++ op ++ " " ++ formattedConstraintValue
  ⟨c.criteria, status, explanation, requiredB c, value, c.value, c.operator⟩

/-- The inner per-option loop of `applyConstraints`: accumulates
(constraintReasons, failedConstraints, passesAllConstraints). -/
def complianceLoop (o : EOption) (cs : List Constraint) :
    List ConstraintReason × List String × Bool :=
  cs.foldl
    (fun acc c =>
      let passes := evaluateConstraint o c
      let reason := generateConstraintReason o c passes
      ⟨acc.1 ++ [reason],
       (if passes then acc.2.1 else acc.2.1 ++ [c.criteria]),
       (if ¬passes ∧ requiredB c then false else acc.2.2)⟩)
    ⟨[], [], true⟩

/-- The compliance report `applyConstraints` stores for one option. -/
def complianceFor (o : EOption) (cs : List Constraint) : ComplianceResult :=
  let t := complianceLoop o cs
  ⟨t.2.2, t.2.1, t.1⟩

/-- Result record of `applyConstraints`. -/
structure ApplyResults where
  validOptions : List EOption
  allResults : List (String × ComplianceResult)

/-- `applyConstraints` from `lib/scoring.js`. -/
def applyConstraints (options : List EOption) (constraints : List Constraint) : ApplyResults :=
  options.foldl
    (fun acc o =>
      let cr := complianceFor o constraints
      ⟨(if cr.passed then acc.validOptions ++ [{ o with constraintCompliance := some cr }]
        else acc.validOptions),
       upsert acc.allResults o.id cr⟩)
    ⟨[], []⟩

/-- The numeric values of a criterion across a set of options: lookup,
drop `undefined`/`null`, coerce with `Number`, drop NaN. -/
def numericValuesFor (options : List EOption) (crit : String) : List ℚ :=
  options.filterMap
    (fun o =>
      match getNestedValue o.features crit with
      | none => none
      | some JSON.null => none
      | some v => jsToNumber v)

/-- `Math.min` over a nonempty list (head plus tail). -/
def listMin (v : ℚ) (vs : List ℚ) : ℚ := vs.foldl qMinQ v

/-- `Math.max` over a nonempty list (head plus tail). -/
def listMax (v : ℚ) (vs : List ℚ) : ℚ := vs.foldl qMaxQ v

/-- The `criteriaRanges` table built at the top of `normalizeOptionValues`:
per criterion with at least one numeric value, its min/max/range. -/
def criteriaRanges (options : List EOption) (priorities : List Priority) :
    List (String × RangeInfo) :=
  priorities.foldl
    (fun acc p =>
      match numericValuesFor options p.criteria with
      | [] => acc
      | v :: vs => upsert acc p.criteria ⟨listMin v vs, listMax v vs, qSub (listMax v vs) (listMin v vs)⟩)
    []

/-- Per-option normalisation step of `normalizeOptionValues`: the clone of
`features` (`JSON.parse(JSON.stringify(features))` is the identity on
parsed-JSON values) with each in-range criterion value replaced by its
min-max normalisation; a raw value that does not coerce to a number leaves
NaN at the path, exactly as `(Number(raw) - min) / range` does. -/
def normalizeOne (ranges : List (String × RangeInfo)) (priorities : List Priority)
    (o : EOption) : NOption :=
  let nf := priorities.foldl
    (fun nf p =>
      match getNestedValue o.features p.criteria, lookupField ranges p.criteria with
      | some rv, some rg =>
          if qLtB (mkRat 0 1) rg.range then
            setNestedValue nf p.criteria
              (match jsToNumber rv with
               | some q => JSON.num (qDiv (qSub q rg.min) rg.range)
               | none => JSON.nan)
          else nf
      | _, _ => nf)
    o.features
  ⟨o, nf⟩

/-- `normalizeOptionValues` from `lib/scoring.js`. -/
def normalizeOptionValues (options : List EOption) (priorities : List Priority) : List NOption :=
  options.map (normalizeOne (criteriaRanges options priorities) priorities)

/-- The `≤` relation, by boolean cross-multiplication. -/
def ascLeQ (a b : ℚ) : Prop := qLeB a b = true

instance : DecidableRel ascLeQ := fun a b => by
  unfold ascLeQ; infer_instance

/-- Ascending numeric sort (`[...values].sort((a, b) => a - b)`; on exact
rationals equal elements are identical, so any sorted permutation is the
same list). -/
def sortAscQ (l : List ℚ) : List ℚ := List.insertionSort ascLeQ l

/-- `calculateCriteriaStatistics` from `lib/scoring.js`. -/
def calculateCriteriaStatistics (options : List EOption) (priorities : List Priority) :
    List (String × Stats) :=
  priorities.foldl
    (fun acc p =>
      match numericValuesFor options p.criteria with
      | [] => acc
      | v :: vs =>
          let values := v :: vs
          let sorted := sortAscQ values
          upsert acc p.criteria
            ⟨listMin v vs, listMax v vs,
             qDiv (values.foldl qAdd (mkRat 0 1)) (mkRat values.length 1),
             sorted.getD (sorted.length / 2) (mkRat 0 1), values.length⟩)
    []

/-- `calculatePercentile` from `lib/scoring.js`: the value is the raw
feature value (coerced by the subtraction), so a non-numeric raw value
yields NaN, which the clamp keeps as NaN. -/
def calculatePercentile (value : JSON) (stats : Stats) (isMinimize : Bool) : Option ℚ :=
  let range := qSub stats.max stats.min
  if range.num = 0 then some (mkRat 50 1)
  else
    let percentile := (jsToNumber value).map
      (fun q => qMul (qDiv (qSub q stats.min) range) (mkRat 100 1))
    let percentile :=
      if isMinimize then percentile.map (fun p => qSub (mkRat 100 1) p) else percentile
    jsMax (some (mkRat 0 1)) (jsMin (some (mkRat 100 1)) percentile)

/-- Rendering of a JS number in a template literal; NaN prints "NaN". -/
def jsNumToString (x : Option ℚ) : String :=
  match x with
  | some q => ratToDecimalString q
  | none => "NaN"

/-- `generateCriteriaReason` from `lib/scoring.js`; `score` is the
unrounded directional score, `stats` the criterion's statistics entry
(absent when no numeric values exist). -/
def generateCriteriaReason (p : Priority) (rawValue : JSON) (score : Option ℚ)
    (stats : Option Stats) (optionName : String) : Reason :=
  let criteria := p.criteria
  let weight : ℤ := jsRoundQ (qMul p.weight (mkRat 100 1))
  let isMinimize := p.optimization = "minimize"
  let performanceLevel :=
    if jsGeB score (some (mkRat 80 1)) then (if isMinimize then "very low" else "excellent")
    else if jsGeB score (some (mkRat 60 1)) then (if isMinimize then "low" else "good")
    else if jsGeB score (some (mkRat 40 1)) then "average"
    else if jsGeB score (some (mkRat 20 1)) then (if isMinimize then "high" else "below average")
    else (if isMinimize then "very high" else "poor")
  let impact :=
    if jsGeB score (some (mkRat 80 1)) then "positive"
    else if jsGeB score (some (mkRat 60 1)) then "positive"
    else if jsGeB score (some (mkRat 40 1)) then "neutral"
    else if jsGeB score (some (mkRat 20 1)) then "negative"
    else "negative"
  let comparison :=
    match stats with
    | some st =>
        if st.count > 1 then
          let percentile := calculatePercentile rawValue st isMinimize
          if jsGeB percentile (some (mkRat 80 1)) then
            (if isMinimize then "among the lowest" else "among the highest")
          else if jsGeB percentile (some (mkRat 60 1)) then
            (if isMinimize then "below average" else "above average")
          else if jsGeB percentile (some (mkRat 40 1)) then "near average"
          else (if isMinimize then "above average" else "below average")
        else "only option available"
    | none => "only option available"
  let formattedValue := formatDisplayValue (some rawValue) criteria
  let weightContribution := jsRound2 (jsMul score (some p.weight))
  let impactPhrase :=
    if impact = "positive" then "helps"
    else if impact = "negative" then "hurts"
    else "neutrally affects"
  ⟨criteria, impact,
   optionName ++ " has " ++ performanceLevel ++ " " ++ criteria ++ " (" ++ formattedValue
     ++ "), which is " ++ comparison
     ++ " compared to alternatives. This " ++ impactPhrase ++ " its overall ranking.",
   some ⟨rawValue, formattedValue, jsRound2 score, performanceLevel, comparison, weight⟩,
   impact, weightContribution⟩

/-- Result record of a successful `calculateCriteriaScore`. -/
structure CCSResult where
  score : Option ℚ
  normalizedValue : JSON
  rawValue : JSON
  reason : Reason

/-- `calculateCriteriaScore` from `lib/scoring.js`: `none` is the
`success: false` outcome (either lookup `undefined`). -/
def calculateCriteriaScore (no : NOption) (p : Priority)
    (criteriaStats : List (String × Stats)) : Option CCSResult :=
  match getNestedValue no.normalizedFeatures p.criteria,
        getNestedValue no.base.features p.criteria with
  | some nv, some rv =>
      let score0 := jsMul (jsToNumber nv) (some (mkRat 100 1))
      let score1 :=
        if p.optimization = "minimize" then jsSub (some (mkRat 100 1)) score0 else score0
      let reason :=
        generateCriteriaReason p rv score1 (lookupField criteriaStats p.criteria) no.base.name
      some ⟨jsRound2 score1, nv, rv, reason⟩
  | _, _ => none

/-- The reason pushed for a priority with missing data. -/
def missingReason (p : Priority) (name : String) : Reason :=
  ⟨p.criteria, "missing_data",
   "No " ++ p.criteria ++ " data available for " ++ name,
   none, "neutral", some (mkRat 0 1)⟩

/-- Accumulator of the per-priority loop in `calculateWeightedScores`. -/
structure ScoreAcc where
  criteriaScores : List (String × CriterionScore)
  reasons : List Reason
  total : Option ℚ

/-- One iteration of the per-priority loop in `calculateWeightedScores`. -/
def scoreStep (criteriaStats : List (String × Stats)) (no : NOption)
    (acc : ScoreAcc) (p : Priority) : ScoreAcc :=
  match calculateCriteriaScore no p criteriaStats with
  | some r =>
      ⟨upsert acc.criteriaScores p.criteria ⟨r.score, r.normalizedValue, r.rawValue⟩,
       acc.reasons ++ [r.reason],
       jsAdd acc.total (jsMul r.score (some p.weight))⟩
  | none =>
      ⟨acc.criteriaScores, acc.reasons ++ [missingReason p no.base.name], acc.total⟩

/-- The scored option built for one normalized option. -/
def scoreOne (criteriaStats : List (String × Stats)) (priorities : List Priority)
    (no : NOption) : ScoredOption :=
  let acc := priorities.foldl (scoreStep criteriaStats no) ⟨[], [], some (mkRat 0 1)⟩
  ⟨no.base.id, no.base.name, jsRound2 acc.total, acc.criteriaScores, acc.reasons,
   no.base.constraintCompliance.getD ⟨true, [], []⟩, none⟩

/-- `calculateWeightedScores` from `lib/scoring.js`. -/
def calculateWeightedScores (options : List EOption) (priorities : List Priority) :
    List ScoredOption :=
  (normalizeOptionValues options priorities).map
    (scoreOne (calculateCriteriaStatistics options priorities) priorities)

/-- "May come before" under the comparator `(a, b) => key b - key a`:
true when the comparator result is ≤ 0, with NaN treated as 0 (ES
SortCompare). -/
def cmpLeB (x y : Option ℚ) : Bool :=
  match jsSub y x with
  | some d => qLeB d (mkRat 0 1)
  | none => true

/-- "May come before" keyed by a numeric field (the relation under which a
stable sort realises a JS `sort` with comparator `key b - key a`). -/
def keyBefore (f : α → Option ℚ) (a b : α) : Prop := cmpLeB (f a) (f b) = true

instance (f : α → Option ℚ) : DecidableRel (keyBefore f) := fun a b => by
  unfold keyBefore; infer_instance

/-- The sort relation on scored options (descending `totalScore`). -/
abbrev scoreBefore : ScoredOption → ScoredOption → Prop := keyBefore ScoredOption.totalScore

/-- The stable descending sort of step 3 of `scoreOptions`. -/
def rankedSort (l : List ScoredOption) : List ScoredOption := List.insertionSort scoreBefore l

/-- `map ((option, index) => ({...option, rank: index + 1}))`. -/
def assignRanks : ℕ → List ScoredOption → List RankedOption
  | _, [] => []
  | i, o :: os => ⟨o, i⟩ :: assignRanks (i + 1) os

/-- `scoreOptions` from `lib/scoring.js`: the complete scoring pipeline. -/
def scoreOptions (options : List EOption) (constraints : List Constraint)
    (priorities : List Priority) (settings : Settings) : ScoreResults :=
  let constraintResults := applyConstraints options constraints
  let validOptions := constraintResults.validOptions
  if validOptions.length = 0 then
    ⟨[], ⟨options.length, 0, none⟩, constraintResults.allResults⟩
  else
    let scoredOptions := calculateWeightedScores validOptions priorities
    let rankedOptions := assignRanks 1 (rankedSort scoredOptions)
    let limitedResults :=
      match settings.max_results with
      | some n => if n = 0 then rankedOptions else rankedOptions.take n
      | none => rankedOptions
    ⟨limitedResults, ⟨options.length, validOptions.length, limitedResults.head?⟩,
     constraintResults.allResults⟩

/-- `average` from `lib/utils.js` applied to a list of JS numbers: NaN
entries are filtered out, the empty/all-NaN list averages to 0. -/
def jsAverage (l : List (Option ℚ)) : ℚ :=
  let v := l.filterMap id
  if v.length = 0 then mkRat 0 1
  else qDiv (v.foldl qAdd (mkRat 0 1)) (mkRat v.length 1)

/-- `calculateAverageScore` from `lib/analysis.js`. -/
def calculateAverageScore (options : List RankedOption) (criteria : String) : ℚ :=
  let scores := options.filterMap
    (fun opt => (lookupField opt.score.criteriaScores criteria).map (·.score))
  if scores.length > 0 then jsAverage scores else mkRat 0 1

/-- The reason's `details.formattedValue`; the `undefined` fallback is
unreachable (every positive/negative reason carries details). -/
def reasonFV (r : Reason) : String :=
  match r.details with
  | some d => d.formattedValue
  | none => "undefined"

/-- The reason's `details.performanceLevel` (same remark). -/
def reasonPL (r : Reason) : String :=
  match r.details with
  | some d => d.performanceLevel
  | none => "undefined"

/-- Sort relation for `(a, b) => b.weightContribution - a.weightContribution`. -/
abbrev reasonBefore : Reason → Reason → Prop := keyBefore Reason.weightContribution

/-- `analyzeOptionTradeOffs` from `lib/analysis.js`. -/
def analyzeOptionTradeOffs (option : RankedOption) (allOptions : List RankedOption) : TradeOffs :=
  let positiveReasons := option.score.reasons.filter (fun r => r.impact == "positive")
  let negativeReasons := option.score.reasons.filter (fun r => r.impact == "negative")
  let strengths :=
    ((List.insertionSort reasonBefore positiveReasons).take 3).map
      (fun r => "Strong " ++ r.criteria ++ ": " ++ reasonFV r ++ " (" ++ reasonPL r ++ ")")
  let weaknesses :=
    ((List.insertionSort reasonBefore negativeReasons).take 3).map
      (fun r => "Weak " ++ r.criteria ++ ": " ++ reasonFV r ++ " (" ++ reasonPL r ++ ")")
  let kd1 := option.score.criteriaScores.foldl
    (fun acc entry =>
      let criteria := entry.1
      let score := entry.2.score
      let avgScore := calculateAverageScore allOptions criteria
      if jsGtB (jsAbs (jsSub score (some avgScore))) (some (mkRat 20 1)) then
        match option.score.reasons.find? (fun r => r.criteria == criteria) with
        | some reason =>
            acc ++ [(if jsGtB score (some avgScore) then "superior" else "inferior")
              ++ " " ++ criteria ++ ": " ++ reasonFV reason ++ " vs competitors"]
        | none => acc
      else acc)
    []
  let kd2 :=
    if option.rank = 1 then kd1 ++ ["Top overall recommendation based on your priorities"]
    else if option.rank ≤ 3 then kd1 ++ ["Ranked #" ++ toString option.rank ++ " among viable options"]
    else kd1
  let failedOptional := option.score.constraintCompliance.constraintReasons.filter
    (fun r => r.status == "failed" && !r.required)
  let kd3 :=
    if failedOptional.length > 0 then
      kd2 ++ ["Fails " ++ toString failedOptional.length ++ " optional constraint(s)"]
    else kd2
  ⟨strengths.take 3, weaknesses.take 3, kd3.take 4⟩

/-- `generateTradeOffAnalysis` from `lib/analysis.js`: returns fresh
records, each the ranked option plus its `tradeOffs`; the input list is
left untouched by the caller's later uses. -/
def generateTradeOffAnalysis (rankedOptions : List RankedOption) : List RankedOption :=
  rankedOptions.map
    (fun o => { o with score := { o.score with tradeOffs := some (analyzeOptionTradeOffs o rankedOptions) } })

/-- `calculateConfidence` from `lib/analysis.js`. -/
def calculateConfidence (rankedOptions : List RankedOption) : Option ℚ :=
  match rankedOptions with
  | a :: b :: _ =>
      let gap := jsSub a.score.totalScore b.score.totalScore
      jsRound2 (jsAdd (some (mkRat 1 2))
        (jsMin (gap.map (fun g => qDiv g (mkRat 100 1))) (some (mkRat 1 2))))
  | _ => some (mkRat 1 1)

/-- `generateRecommendationReasoning` from `lib/analysis.js`.  The key
strength sentence is appended only when the option carries a trade-off
annotation with a first strength. -/
def generateRecommendationReasoning (topOption : RankedOption)
    (allOptions : List RankedOption) : String :=
  let score := topOption.score.totalScore
  let gap :=
    match allOptions with
    | _ :: b :: _ => jsSub topOption.score.totalScore b.score.totalScore
    | _ => some (mkRat 0 1)
  let base := "Scored " ++ jsNumToString score ++ "/100 overall. "
  let gapPhrase :=
    if jsGtB gap (some (mkRat 15 1)) then
      "Clear leader with " ++ jsNumToString (jsRound1 gap) ++ " point advantage. "
    else if jsGtB gap (some (mkRat 8 1)) then "Moderate edge over alternatives. "
    else if jsGtB gap (some (mkRat 3 1)) then "Slight advantage in close competition. "
    else "Very close competition with other options. "
  match Option.bind topOption.score.tradeOffs (fun t => t.strengths.head?) with
  | some s => base ++ gapPhrase ++ "Key strength: " ++ asciiLower s ++ "."
  | none => base ++ gapPhrase

/-- The `topRecommendation` record built by `generateSummary`. -/
structure TopRec where
  optionId : String
  confidence : Option ℚ
  reasoning : String

/-- The summary record built by `generateSummary`. -/
structure AnalysisSummary where
  totalOptionsEvaluated : ℕ
  optionsMeetingConstraints : ℕ
  topRecommendation : Option TopRec

/-- `generateSummary` from `lib/analysis.js` (its `originalOptions`
parameter is unused by the source and omitted here). -/
def generateSummary (scoringResults : ScoreResults) : AnalysisSummary :=
  match scoringResults.rankedOptions.head? with
  | some topOption =>
      ⟨scoringResults.summary.totalOptionsEvaluated,
       scoringResults.summary.optionsMeetingConstraints,
       some ⟨topOption.score.optionId,
             calculateConfidence scoringResults.rankedOptions,
             generateRecommendationReasoning topOption scoringResults.rankedOptions⟩⟩
  | none =>
      ⟨scoringResults.summary.totalOptionsEvaluated,
       scoringResults.summary.optionsMeetingConstraints, none⟩

/-- Result of the API pipeline `processComparison`. -/
structure ProcessResults where
  rankedOptions : List RankedOption
  summary : AnalysisSummary

/-- `processComparison` from the API route: scoring, then trade-off
annotation of a fresh list, then a summary computed from the *scoring*
results (whose options carry no trade-off annotation). -/
def processComparison (options : List EOption) (constraints : List Constraint)
    (priorities : List Priority) (settings : Settings) : ProcessResults :=
  let scoringResults := scoreOptions options constraints priorities settings
  ⟨generateTradeOffAnalysis scoringResults.rankedOptions, generateSummary scoringResults⟩

/-- Sum of the `weightContribution` fields of a reason list, as JS
accumulation (`none` = NaN propagates). -/
def sumWeightContributions (rs : List Reason) : Option ℚ :=
  rs.foldl (fun t r => jsAdd t r.weightContribution) (some 0)

/-- The running `totalScore` accumulator over a priority list (projection
of the scoring fold). -/
def scoreTotal (criteriaStats : List (String × Stats)) (no : NOption)
    (ps : List Priority) : Option ℚ :=
  (ps.foldl (scoreStep criteriaStats no) ⟨[], [], some 0⟩).total

/-- Dotted paths as segment lists. -/
def pathSegs (s : String) : List String := s.splitOn "."

/-- Two dotted paths that diverge: neither's segment list is a prefix of
the other's, so a write through one cannot change a read through the
other. -/
def PathsDiverge (p q : String) : Prop :=
  ¬ pathSegs p <+: pathSegs q ∧ ¬ pathSegs q <+: pathSegs p

/-- Spec wording of the gap phrase of §4.6 (thresholds on the score gap). -/
def gapPhraseSpec (gap : Option ℚ) : String :=
  if jsGtB gap (some (mkRat 15 1)) then
    "Clear leader with " ++ jsNumToString (jsRound1 gap) ++ " point advantage. "
  else if jsGtB gap (some (mkRat 8 1)) then "Moderate edge over alternatives. "
  else if jsGtB gap (some (mkRat 3 1)) then "Slight advantage in close competition. "
  else "Very close competition with other options. "

/-- One display-formatting rule of §4.4: keyword list and renderer. -/
structure FormatRule where
  keys : List String
  render : Option ℚ → String

/-- Currency renderer (`$` + three decimals). -/
def renderCurrency (x : Option ℚ) : String :=
  "$" ++ (match x with | some q => jsToFixed q 3 | none => "NaN")

/-- Percent renderer (plain number + `%`). -/
def renderPercent (x : Option ℚ) : String :=
  (match x with | some q => ratToDecimalString q | none => "NaN") ++ "%"

/-- Locale renderer (thousands separators, at most three fraction digits). -/
def renderLocale (x : Option ℚ) : String :=
  match x with | some q => toLocaleStringQ q | none => "NaN"

/-- The keyword rule table of the display formatter, in source order;
matching is case-sensitive substring containment, first match wins. -/
def formatRulesSpec : List FormatRule :=
  [⟨["cost", "price"], renderCurrency⟩,
   ⟨["percent", "reliability", "uptime"], renderPercent⟩,
   ⟨["performance", "iops"], renderLocale⟩]

/-- First-match interpretation of the rule table. -/
def applyFormatRules : List FormatRule → Option ℚ → String → Option String
  | [], _, _ => none
  | r :: rest, x, criteria =>
      if r.keys.any (fun k => containsSub k criteria) then some (r.render x)
      else applyFormatRules rest x criteria

/-- Spec rendering of the numeric display rules: the keyword table first,
then the magnitude fallback (three decimals below 1, one decimal below
100, grouped rounded integer at or above 100; NaN falls to the grouped
branch and prints "NaN"). -/
def formatNumericSpec (x : Option ℚ) (criteria : String) : String :=
  match applyFormatRules formatRulesSpec x criteria with
  | some s => s
  | none =>
      if jsLtB x (some (mkRat 1 1)) then (match x with | some q => jsToFixed q 3 | none => "NaN")
      else if jsLtB x (some (mkRat 100 1)) then (match x with | some q => jsToFixed q 1 | none => "NaN")
      else (match x with | some q => roundLocaleQ q | none => "NaN")

/-- Spec rendering of `formatDisplayValue` (amended §4.4 wording): numbers
through the rules, anything else through its plain textual form. -/
def formatDisplaySpec (value : Option JSON) (criteria : String) : String :=
  match value with
  | some (JSON.num q) => formatNumericSpec (some q) criteria
  | some JSON.nan => formatNumericSpec none criteria
  | some v => jsToString v
  | none => "undefined"

/-- Scenario A of §8: two options, no constraints. -/
def scenarioAOptions : List EOption :=
  [⟨"option1", "Option 1", JSON.obj [("cost", JSON.num (mkRat 100 1)), ("performance", JSON.num (mkRat 80 1))], none⟩,
   ⟨"option2", "Option 2", JSON.obj [("cost", JSON.num (mkRat 150 1)), ("performance", JSON.num (mkRat 90 1))], none⟩]

/-- Scenario A priorities: cost 0.6 minimize, performance 0.4 maximize. -/
def scenarioAPriorities : List Priority :=
  [⟨"cost", mkRat 6 10, "minimize"⟩, ⟨"performance", mkRat 4 10, "maximize"⟩]

/-- Three options whose top-two score gap is 0.5 under one maximize
priority of weight 1. -/
def gapOptions : List EOption :=
  [⟨"y1", "Y1", JSON.obj [("v", JSON.num (mkRat 0 1))], none⟩,
   ⟨"y2", "Y2", JSON.obj [("v", JSON.num (mkRat 199 1))], none⟩,
   ⟨"y3", "Y3", JSON.obj [("v", JSON.num (mkRat 200 1))], none⟩]

/-- Single maximize priority of weight 1 on `v`. -/
def gapPriorities : List Priority := [⟨"v", mkRat 1 1, "maximize"⟩]

/-- Options for the normalization-leak counterexample: two numeric values,
one non-numeric string, one `null`. -/
def leakOptions : List EOption :=
  [⟨"z1", "Z1", JSON.obj [("x", JSON.num (mkRat 10 1))], none⟩,
   ⟨"z2", "Z2", JSON.obj [("x", JSON.num (mkRat 20 1))], none⟩,
   ⟨"z3", "Z3", JSON.obj [("x", JSON.str "abc")], none⟩,
   ⟨"z4", "Z4", JSON.obj [("x", JSON.null)], none⟩]

/-- Single maximize priority of weight 1 on `x`. -/
def leakPriorities : List Priority := [⟨"x", mkRat 1 1, "maximize"⟩]

/-- Options for the percentile counterexample (numeric 10 and 20 plus a
non-numeric raw value sharing the criterion). -/
def percOptions : List EOption :=
  [⟨"z1", "Z1", JSON.obj [("x", JSON.num (mkRat 10 1))], none⟩,
   ⟨"z2", "Z2", JSON.obj [("x", JSON.num (mkRat 20 1))], none⟩,
   ⟨"z3", "Z3", JSON.obj [("x", JSON.str "abc")], none⟩]

/-- Options for the double-rounding counterexample: the middle option's
unrounded criterion scores are 50.035, 50.015, 50.015. -/
def roundingOptions : List EOption :=
  [⟨"x1", "X1", JSON.obj [("c1", JSON.num (mkRat 0 1)), ("c2", JSON.num (mkRat 0 1)), ("c3", JSON.num (mkRat 0 1))], none⟩,
   ⟨"x2", "X2", JSON.obj [("c1", JSON.num (mkRat 50035 1000)), ("c2", JSON.num (mkRat 50015 1000)),
                          ("c3", JSON.num (mkRat 50015 1000))], none⟩,
   ⟨"x3", "X3", JSON.obj [("c1", JSON.num (mkRat 100 1)), ("c2", JSON.num (mkRat 100 1)), ("c3", JSON.num (mkRat 100 1))], none⟩]

/-- Maximize priorities with weights 0.4, 0.3, 0.3. -/
def roundingPriorities : List Priority :=
  [⟨"c1", mkRat 4 10, "maximize"⟩, ⟨"c2", mkRat 3 10, "maximize"⟩, ⟨"c3", mkRat 3 10, "maximize"⟩]

/-- A required upper-bound cost constraint used to witness the
constraint-filtering claims on Scenario A. -/
def scenarioAConstraints : List Constraint :=
  [⟨"cost", "lte", JSON.num (mkRat 120 1), some true⟩]

/-- The per-priority step of `normalizeOptionValues`, tracked on the field
list of an object-features clone (the JSON-level fold stays an object when
every criterion path is a single segment). -/
def normStepFields (ranges : List (String × RangeInfo)) (o : EOption)
    (fl : List (String × JSON)) (p : Priority) : List (String × JSON) :=
  match getNestedValue o.features p.criteria, lookupField ranges p.criteria with
  | some rv, some rg =>
      if qLtB (mkRat 0 1) rg.range then
        upsert fl p.criteria
          (match jsToNumber rv with
           | some q => JSON.num (qDiv (qSub q rg.min) rg.range)
           | none => JSON.nan)
      else fl
  | _, _ => fl

set_option maxRecDepth 4000

/-!
Bridge lemmas: the computational rational operations agree with the
Mathlib operations, so analytical proofs can work with `+`, `*`, `≤`, `⌊·⌋`.
-/

theorem qAdd_eq (a b : ℚ) : qAdd a b = a + b := by
  unfold qAdd
  rw [Rat.mkRat_eq_div]
  push_cast
  conv_rhs => rw [← Rat.num_div_den a, ← Rat.num_div_den b]
  have ha : ((a.den : ℚ)) ≠ 0 := by exact_mod_cast a.den_nz
  have hb : ((b.den : ℚ)) ≠ 0 := by exact_mod_cast b.den_nz
  rw [div_add_div _ _ ha hb]
  ring_nf

theorem qSub_eq (a b : ℚ) : qSub a b = a - b := by
  unfold qSub
  rw [Rat.mkRat_eq_div]
  push_cast
  conv_rhs => rw [← Rat.num_div_den a, ← Rat.num_div_den b]
  have ha : ((a.den : ℚ)) ≠ 0 := by exact_mod_cast a.den_nz
  have hb : ((b.den : ℚ)) ≠ 0 := by exact_mod_cast b.den_nz
  rw [div_sub_div _ _ ha hb]
  ring_nf

theorem qMul_eq (a b : ℚ) : qMul a b = a * b := by
  unfold qMul
  rw [Rat.mkRat_eq_div]
  push_cast
  conv_rhs => rw [← Rat.num_div_den a, ← Rat.num_div_den b]
  rw [div_mul_div_comm]

theorem qNeg_eq (a : ℚ) : qNeg a = -a := by
  unfold qNeg
  rw [Rat.mkRat_eq_div]
  push_cast
  conv_rhs => rw [← Rat.num_div_den a]
  ring

theorem qInv_eq (a : ℚ) : qInv a = a⁻¹ := by
  unfold qInv
  rcases lt_trichotomy a.num 0 with h | h | h
  · simp only [if_pos h]
    rw [Rat.mkRat_eq_div]
    push_cast [Int.cast_natAbs]
    rw [abs_of_neg (show ((a.num : ℚ)) < 0 by exact_mod_cast h)]
    conv_rhs => rw [← Rat.num_div_den a]
    rw [inv_div]
    have hn : ((a.num : ℚ)) ≠ 0 := by exact_mod_cast h.ne
    field_simp
  · simp only [h, if_neg (lt_irrefl 0)]
    have h0 : a = 0 := by
      rw [← Rat.num_div_den a, h]; simp
    subst h0
    simp
  · simp only [if_neg (not_lt.mpr h.le)]
    rw [Rat.mkRat_eq_div]
    push_cast [Int.cast_natAbs]
    rw [abs_of_pos (show (0 : ℚ) < a.num by exact_mod_cast h)]
    conv_rhs => rw [← Rat.num_div_den a]
    rw [inv_div]

theorem qDiv_eq (a b : ℚ) : qDiv a b = a / b := by
  unfold qDiv
  rw [qMul_eq, qInv_eq, div_eq_mul_inv]

theorem qLeB_iff (a b : ℚ) : qLeB a b = true ↔ a ≤ b := by
  unfold qLeB
  rw [decide_eq_true_iff, Rat.le_def]

theorem qLtB_iff (a b : ℚ) : qLtB a b = true ↔ a < b := by
  unfold qLtB
  rw [decide_eq_true_iff, Rat.lt_def]

theorem qMinQ_eq (a b : ℚ) : qMinQ a b = min a b := by
  unfold qMinQ
  rw [min_def]
  by_cases h : a ≤ b
  · rw [if_pos (qLeB_iff a b |>.mpr h), if_pos h]
  · rw [if_neg (fun hb => h ((qLeB_iff a b).mp hb)), if_neg h]

theorem qMaxQ_eq (a b : ℚ) : qMaxQ a b = max a b := by
  unfold qMaxQ
  rw [max_def]
  by_cases h : a ≤ b
  · rw [if_pos (qLeB_iff a b |>.mpr h), if_pos h]
  · rw [if_neg (fun hb => h ((qLeB_iff a b).mp hb)), if_neg h]

theorem qAbs_eq (a : ℚ) : qAbs a = |a| := by
  unfold qAbs
  rw [Rat.mkRat_eq_div]
  push_cast [Int.cast_natAbs]
  conv_rhs => rw [← Rat.num_div_den a]
  rw [abs_div]
  congr 1
  rw [abs_of_pos]
  exact_mod_cast a.pos

theorem qFloor_eq (q : ℚ) : qFloor q = ⌊q⌋ := by
  unfold qFloor
  rw [Int.fdiv_eq_ediv _ (by exact_mod_cast Nat.zero_le q.den)]
  rw [← Rat.floor_intCast_div_natCast q.num q.den, Rat.num_div_den]

theorem jsRoundQ_eq (q : ℚ) : jsRoundQ q = ⌊q + 1/2⌋ := by
  unfold jsRoundQ
  rw [qFloor_eq, qAdd_eq]
  norm_num [Rat.mkRat_eq_div]

theorem roundToDecimals2_eq (q : ℚ) : roundToDecimals2 q = (⌊q * 100 + 1/2⌋ : ℚ) / 100 := by
  unfold roundToDecimals2
  rw [Rat.mkRat_eq_div, jsRoundQ_eq, qMul_eq]
  norm_num [Rat.mkRat_eq_div]

/-- Claim C2: for the two-option Scenario A input (Option1 features cost 100
and performance 80, Option2 cost 150 and performance 90, no constraints,
priorities cost weight 0.6 minimize and performance weight 0.4 maximize),
the scoring pipeline returns totalScore 60.00 for Option1 and 40.00 for
Option2, and Option1 receives rank 1. -/
theorem claim2_scenarioA :
    (scoreOptions scenarioAOptions [] scenarioAPriorities {}).rankedOptions.map
        (fun r => (r.score.optionId, r.score.totalScore, r.rank))
      = [("option1", some 60, 1), ("option2", some 40, 2)] := by
  with_unfolding_all decide

/-- Counterexample to claim C4 as stated: with numeric values 10 and 20 and
a `null` and a non-numeric raw value on the same criterion, the range is
10 > 0, yet the `null` option's value normalizes to −1 (JS coerces `null`
to 0, which never entered the min/max) and the string option's value
normalizes to NaN — neither is a min-max value in [0,1]. -/
theorem claim4_normalization_cex :
    lookupField (criteriaRanges leakOptions leakPriorities) "x"
        = some ⟨mkRat 10 1, mkRat 20 1, mkRat 10 1⟩
      ∧ (normalizeOptionValues leakOptions leakPriorities).map
          (fun no => getNestedValue no.normalizedFeatures "x")
        = [some (JSON.num (mkRat 0 1)), some (JSON.num (mkRat 1 1)), some JSON.nan,
           some (JSON.num (mkRat (-1) 1))]
      ∧ ¬ (0 ≤ (mkRat (-1) 1 : ℚ) ∧ (mkRat (-1) 1 : ℚ) ≤ 1) := by
  exact ⟨rfl, rfl, by decide⟩

/-- Counterexample to claim C5 as stated: with ranked totals 100, 99.5, 0
the gap is 0.5 and the code returns `roundToDecimals(0.505, 2) = 0.51`,
not the claimed `clamp(0.5 + min(gap/100, 0.5), 0, 1) = 0.505`. -/
theorem claim5_confidence_cex :
    (generateSummary (scoreOptions gapOptions [] gapPriorities {})).topRecommendation.map
        (·.confidence) = some (some (mkRat 51 100))
      ∧ (scoreOptions gapOptions [] gapPriorities {}).rankedOptions.map
          (fun r => r.score.totalScore)
        = [some (mkRat 100 1), some (mkRat 199 2), some (mkRat 0 1)]
      ∧ (mkRat 51 100 : ℚ) ≠ min 1 (max 0 (1/2 + min ((100 - 199/2)/100) (1/2))) := by
  refine ⟨by decide, by decide, by norm_num [Rat.mkRat_eq_div]⟩

/-- Counterexample to claim C6 as stated: with three priorities of weights
0.4/0.3/0.3 and unrounded scores 50.035/50.015/50.015, the middle option
has totalScore 50.03 but weight contributions summing to 50.01 — a 0.02
gap, beyond the claimed 0.01 tolerance — with no missing-data reasons. -/
theorem claim6_totalscore_cex :
    (calculateWeightedScores roundingOptions roundingPriorities).map (·.totalScore)
        = [some (mkRat 0 1), some (mkRat 5003 100), some (mkRat 100 1)]
      ∧ ((calculateWeightedScores roundingOptions roundingPriorities).get? 1).map
          (fun s => sumWeightContributions s.reasons) = some (some (mkRat 5001 100))
      ∧ ((calculateWeightedScores roundingOptions roundingPriorities).get? 1).map
          (fun s => s.reasons.map (·.status)) = some ["neutral", "neutral", "neutral"]
      ∧ ¬ (|(mkRat 5003 100 : ℚ) - mkRat 5001 100| ≤ 1/100) := by
  refine ⟨by decide, by decide, by decide, ?_⟩
  have h : |(mkRat 5003 100 : ℚ) - mkRat 5001 100| = 1/50 := by
    norm_num [Rat.mkRat_eq_div]
  rw [h]; norm_num

/-- Counterexample to claim C7 as stated: on Scenario A the pipeline's
recommendation reasoning is exactly the scored/gap text with no
"Key strength" clause (the summary is computed from scoring output, which
carries no trade-off annotation). -/
theorem claim7_reasoning_cex :
    (processComparison scenarioAOptions [] scenarioAPriorities {}).summary.topRecommendation.map
        (·.reasoning)
      = some "Scored 60/100 overall. Clear leader with 20 point advantage. "
      ∧ containsSub "Key strength"
          "Scored 60/100 overall. Clear leader with 20 point advantage. " = false := by
  decide

/-- Counterexample to claim C9 as stated: the criterion name "Cost"
contains "cost" case-insensitively, but the formatter matches
case-sensitively and renders the value 5 through the magnitude fallback
("5.0"), not as the claimed currency "$5.000". -/
theorem claim9_format_cex :
    formatDisplayValue (some (JSON.num (mkRat 5 1))) "Cost" = "5.0"
      ∧ containsSub "cost" (asciiLower "Cost") = true
      ∧ ("5.0" : String) ≠ "$" ++ jsToFixed (mkRat 5 1) 3 := by
  decide

/-- Counterexample to claim C10 as stated: with observed statistics
min 10 / max 20 (count 2, as computed by the engine for `percOptions`),
the percentile of the non-numeric raw value "abc" is NaN, which the clamp
keeps as NaN — not a value in [0,100]. -/
theorem claim10_percentile_cex :
    lookupField (calculateCriteriaStatistics percOptions leakPriorities) "x"
        = some ⟨mkRat 10 1, mkRat 20 1, mkRat 15 1, mkRat 20 1, 2⟩
      ∧ calculatePercentile (JSON.str "abc") ⟨mkRat 10 1, mkRat 20 1, mkRat 15 1, mkRat 20 1, 2⟩
          false = none
      ∧ ∀ q : ℚ, (none : Option ℚ) = some q → False := by
  exact ⟨rfl, rfl, fun _ h => Option.noConfusion h⟩

theorem keyBefore_of_none_left {f : α → Option ℚ} {a b : α} (h : f a = none) : keyBefore f a b := by
  unfold keyBefore cmpLeB jsSub
  rw [h]
  cases f b <;> rfl

theorem keyBefore_of_none_right {f : α → Option ℚ} {a b : α} (h : f b = none) : keyBefore f a b := by
  unfold keyBefore cmpLeB jsSub
  rw [h]
  rfl

theorem keyBefore_some_iff {f : α → Option ℚ} {a b : α} {x y : ℚ}
    (hx : f a = some x) (hy : f b = some y) : keyBefore f a b ↔ y ≤ x := by
  unfold keyBefore cmpLeB jsSub
  rw [hx, hy]
  show qLeB (qSub y x) (mkRat 0 1) = true ↔ y ≤ x
  rw [qLeB_iff, qSub_eq, show (mkRat 0 1 : ℚ) = 0 from by norm_num [Rat.mkRat_eq_div]]
  exact sub_nonpos

theorem keyBefore_total {f : α → Option ℚ} {a b : α} (h : ¬ keyBefore f a b) : keyBefore f b a := by
  cases hx : f a with
  | none => exact absurd (keyBefore_of_none_left hx) h
  | some x =>
    cases hy : f b with
    | none => exact absurd (keyBefore_of_none_right hy) h
    | some y =>
      rw [keyBefore_some_iff hx hy] at h
      rw [keyBefore_some_iff hy hx]
      linarith [lt_of_not_le h]

theorem keyBefore_trans {f : α → Option ℚ} {a b c : α} (hb : (f b).isSome)
    (h1 : keyBefore f a b) (h2 : keyBefore f b c) : keyBefore f a c := by
  cases hx : f a with
  | none => exact keyBefore_of_none_left hx
  | some x =>
    cases hz : f c with
    | none => exact keyBefore_of_none_right hz
    | some z =>
      obtain ⟨y, hy⟩ := Option.isSome_iff_exists.mp hb
      rw [keyBefore_some_iff hx hy] at h1
      rw [keyBefore_some_iff hy hz] at h2
      rw [keyBefore_some_iff hx hz]
      linarith

theorem orderedInsert_pairwise {f : α → Option ℚ} (a : α) (l : List α)
    (hl : l.Pairwise (keyBefore f)) (hsome : ∀ x ∈ l, (f x).isSome) :
    (l.orderedInsert (keyBefore f) a).Pairwise (keyBefore f) := by
  induction l with
  | nil => simp [List.orderedInsert]
  | cons b t ih =>
    simp only [List.orderedInsert]
    by_cases h : keyBefore f a b
    · rw [if_pos h]
      refine List.Pairwise.cons ?_ hl
      intro c hc
      rcases List.mem_cons.mp hc with rfl | hc
      · exact h
      · exact keyBefore_trans (hsome b (by simp)) h (List.rel_of_pairwise_cons hl hc)
    · rw [if_neg h]
      refine List.Pairwise.cons ?_ (ih hl.of_cons (fun x hx => hsome x (by simp [hx])))
      intro c hc
      rw [List.mem_orderedInsert] at hc
      rcases hc with hc | hc
      · subst hc
        exact keyBefore_total h
      · exact List.rel_of_pairwise_cons hl hc

theorem insertionSort_pairwise {f : α → Option ℚ} (l : List α)
    (hsome : ∀ x ∈ l, (f x).isSome) :
    (List.insertionSort (keyBefore f) l).Pairwise (keyBefore f) := by
  induction l with
  | nil => simp [List.insertionSort]
  | cons a t ih =>
    simp only [List.insertionSort]
    refine orderedInsert_pairwise a _ (ih (fun x hx => hsome x (by simp [hx]))) ?_
    intro x hx
    exact hsome x (by simp [(List.mem_insertionSort _).mp hx])

theorem filter_orderedInsert_key {f : α → Option ℚ} (a : α) (l : List α) (t : ℚ)
    (ha : f a = some t) :
    (l.orderedInsert (keyBefore f) a).filter (fun x => decide (f x = some t))
      = a :: l.filter (fun x => decide (f x = some t)) := by
  induction l with
  | nil => simp [List.orderedInsert, List.filter, ha]
  | cons b l' ih =>
    simp only [List.orderedInsert]
    by_cases h : keyBefore f a b
    · rw [if_pos h]
      simp [List.filter, ha]
    · rw [if_neg h]
      have hb : f b ≠ some t := by
        intro hbt
        exact h ((keyBefore_some_iff ha hbt).mpr (le_refl t))
      simp only [List.filter_cons]
      rw [if_neg (by simpa using hb), if_neg (by simpa using hb)]
      exact ih

theorem filter_orderedInsert_ne {f : α → Option ℚ} (a : α) (l : List α) (t : ℚ)
    (ha : f a ≠ some t) :
    (l.orderedInsert (keyBefore f) a).filter (fun x => decide (f x = some t))
      = l.filter (fun x => decide (f x = some t)) := by
  induction l with
  | nil => simp [List.orderedInsert, List.filter, ha]
  | cons b l' ih =>
    simp only [List.orderedInsert]
    by_cases h : keyBefore f a b
    · rw [if_pos h]
      simp [List.filter_cons, ha]
    · rw [if_neg h]
      simp only [List.filter_cons]
      rw [ih]

theorem filter_insertionSort_key {f : α → Option ℚ} (l : List α) (t : ℚ) :
    (List.insertionSort (keyBefore f) l).filter (fun x => decide (f x = some t))
      = l.filter (fun x => decide (f x = some t)) := by
  induction l with
  | nil => rfl
  | cons a l' ih =>
    simp only [List.insertionSort]
    by_cases ha : f a = some t
    · rw [filter_orderedInsert_key a _ t ha, ih]
      simp [List.filter_cons, ha]
    · rw [filter_orderedInsert_ne a _ t ha, ih]
      simp [List.filter_cons, ha]

theorem assignRanks_map_score (i : ℕ) (l : List ScoredOption) :
    (assignRanks i l).map RankedOption.score = l := by
  induction l generalizing i with
  | nil => rfl
  | cons a t ih => simp [assignRanks, ih]

theorem assignRanks_map_rank (i : ℕ) (l : List ScoredOption) :
    (assignRanks i l).map RankedOption.rank = List.range' i l.length := by
  induction l generalizing i with
  | nil => rfl
  | cons a t ih => simp [assignRanks, List.range'_succ, ih]

theorem assignRanks_length (i : ℕ) (l : List ScoredOption) :
    (assignRanks i l).length = l.length := by
  induction l generalizing i with
  | nil => rfl
  | cons a t ih => simp [assignRanks, ih]

/-- Claim C3: the ranked list carries consecutive ranks starting at 1, is a
permutation of the weighted-scored valid options ordered by descending
totalScore (stably for ties, NaN compared as 0), and `max_results` = 0 is
ignored while a positive value truncates to a prefix. -/
theorem claim3_ranking (options : List EOption) (constraints : List Constraint)
    (priorities : List Priority) (settings : Settings)
    (hnum : ∀ so ∈ calculateWeightedScores
        (applyConstraints options constraints).validOptions priorities, so.totalScore.isSome) :
    ((scoreOptions options constraints priorities ⟨none⟩).rankedOptions.map RankedOption.rank
        = List.range' 1 (scoreOptions options constraints priorities ⟨none⟩).rankedOptions.length)
    ∧ ((scoreOptions options constraints priorities ⟨none⟩).rankedOptions.map
          RankedOption.score).Perm
        (calculateWeightedScores (applyConstraints options constraints).validOptions priorities)
    ∧ ((scoreOptions options constraints priorities ⟨none⟩).rankedOptions.map
          RankedOption.score).Pairwise (fun a b => jsGeB a.totalScore b.totalScore = true)
    ∧ (∀ t : ℚ, ((scoreOptions options constraints priorities ⟨none⟩).rankedOptions.map
            RankedOption.score).filter (fun so => decide (so.totalScore = some t))
        = (calculateWeightedScores
            (applyConstraints options constraints).validOptions priorities).filter
            (fun so => decide (so.totalScore = some t)))
    ∧ (∀ n, settings.max_results = some n → 1 ≤ n →
        (scoreOptions options constraints priorities settings).rankedOptions
          = (scoreOptions options constraints priorities ⟨none⟩).rankedOptions.take n)
    ∧ (settings.max_results = none →
        (scoreOptions options constraints priorities settings).rankedOptions
          = (scoreOptions options constraints priorities ⟨none⟩).rankedOptions) := by
  by_cases hv : (applyConstraints options constraints).validOptions.length = 0
  · have hsc : calculateWeightedScores
        (applyConstraints options constraints).validOptions priorities = [] := by
      rw [List.length_eq_zero] at hv
      simp [calculateWeightedScores, normalizeOptionValues, hv]
    have hro : ∀ st : Settings,
        (scoreOptions options constraints priorities st).rankedOptions = [] := by
      intro st
      simp [scoreOptions, hv]
    refine ⟨?_, ?_, ?_, ?_, ?_, ?_⟩
    · simp [hro]
    · simp [hro, hsc]
    · simp [hro]
    · simp [hro, hsc]
    · intro n hn h1
      simp [hro]
    · intro hn
      simp [hro]
  · have hro : ∀ st : Settings,
        (scoreOptions options constraints priorities st).rankedOptions
          = (match st.max_results with
             | some n =>
                 if n = 0 then
                   assignRanks 1 (rankedSort (calculateWeightedScores
                     (applyConstraints options constraints).validOptions priorities))
                 else
                   (assignRanks 1 (rankedSort (calculateWeightedScores
                     (applyConstraints options constraints).validOptions priorities))).take n
             | none =>
                 assignRanks 1 (rankedSort (calculateWeightedScores
                   (applyConstraints options constraints).validOptions priorities))) := by
      intro st
      simp only [scoreOptions, if_neg hv]
    have hfull : (scoreOptions options constraints priorities ⟨none⟩).rankedOptions
        = assignRanks 1 (rankedSort (calculateWeightedScores
            (applyConstraints options constraints).validOptions priorities)) := hro ⟨none⟩
    set scored := calculateWeightedScores
      (applyConstraints options constraints).validOptions priorities with hscored
    have hmapscore : (assignRanks 1 (rankedSort scored)).map RankedOption.score
        = rankedSort scored := assignRanks_map_score 1 _
    refine ⟨?_, ?_, ?_, ?_, ?_, ?_⟩
    · rw [hfull, assignRanks_map_rank, assignRanks_length]
    · rw [hfull, hmapscore]
      exact List.perm_insertionSort _ _
    · rw [hfull, hmapscore]
      have hp := insertionSort_pairwise (f := ScoredOption.totalScore) scored hnum
      refine hp.imp_of_mem ?_
      intro a b ha hb hk
      have ha' : a.totalScore.isSome :=
        hnum a ((List.mem_insertionSort _).mp ha)
      have hb' : b.totalScore.isSome :=
        hnum b ((List.mem_insertionSort _).mp hb)
      obtain ⟨x, hx⟩ := Option.isSome_iff_exists.mp ha'
      obtain ⟨y, hy⟩ := Option.isSome_iff_exists.mp hb'
      have := (keyBefore_some_iff (f := ScoredOption.totalScore) hx hy).mp hk
      show jsLeB b.totalScore a.totalScore = true
      rw [hx, hy]
      show qLeB y x = true
      exact (qLeB_iff y x).mpr this
    · intro t
      rw [hfull, hmapscore]
      exact filter_insertionSort_key (f := ScoredOption.totalScore) scored t
    · intro n hn h1
      rw [hro settings, hn, hfull]
      have : n ≠ 0 := Nat.one_le_iff_ne_zero.mp h1
      simp [this]
    · intro hn
      rw [hro settings, hn, hfull]

theorem claim3_ranking_witness :
    (∀ so ∈ calculateWeightedScores
        (applyConstraints scenarioAOptions []).validOptions scenarioAPriorities,
      so.totalScore.isSome)
    ∧ (((scoreOptions scenarioAOptions [] scenarioAPriorities ⟨none⟩).rankedOptions.map
            RankedOption.rank
          = List.range' 1
              (scoreOptions scenarioAOptions [] scenarioAPriorities ⟨none⟩).rankedOptions.length)
        ∧ ((scoreOptions scenarioAOptions [] scenarioAPriorities ⟨none⟩).rankedOptions.map
              RankedOption.score).Perm
            (calculateWeightedScores
              (applyConstraints scenarioAOptions []).validOptions scenarioAPriorities)
        ∧ ((scoreOptions scenarioAOptions [] scenarioAPriorities ⟨none⟩).rankedOptions.map
              RankedOption.score).Pairwise (fun a b => jsGeB a.totalScore b.totalScore = true)
        ∧ (∀ t : ℚ, ((scoreOptions scenarioAOptions [] scenarioAPriorities ⟨none⟩).rankedOptions.map
                RankedOption.score).filter (fun so => decide (so.totalScore = some t))
            = (calculateWeightedScores
                (applyConstraints scenarioAOptions []).validOptions scenarioAPriorities).filter
                (fun so => decide (so.totalScore = some t)))
        ∧ (∀ n, (⟨some 1⟩ : Settings).max_results = some n → 1 ≤ n →
            (scoreOptions scenarioAOptions [] scenarioAPriorities ⟨some 1⟩).rankedOptions
              = (scoreOptions scenarioAOptions [] scenarioAPriorities
                  ⟨none⟩).rankedOptions.take n)
        ∧ ((⟨some 1⟩ : Settings).max_results = none →
            (scoreOptions scenarioAOptions [] scenarioAPriorities ⟨some 1⟩).rankedOptions
              = (scoreOptions scenarioAOptions [] scenarioAPriorities ⟨none⟩).rankedOptions)) :=
  ⟨by decide, claim3_ranking scenarioAOptions [] scenarioAPriorities ⟨some 1⟩ (by decide)⟩

theorem roundToDecimals2_bounds {v : ℚ} (h1 : 1/2 ≤ v) (h2 : v ≤ 1) :
    1/2 ≤ roundToDecimals2 v ∧ roundToDecimals2 v ≤ 1 := by
  rw [roundToDecimals2_eq]
  constructor
  · have hf : (50 : ℤ) ≤ ⌊v * 100 + 1/2⌋ := Int.le_floor.mpr (by push_cast; linarith)
    rw [le_div_iff (by norm_num : (0:ℚ) < 100)]
    calc (1/2 : ℚ) * 100 = 50 := by norm_num
    _ ≤ (⌊v * 100 + 1/2⌋ : ℚ) := by exact_mod_cast hf
  · have hf : ⌊v * 100 + 1/2⌋ ≤ (100 : ℤ) := by
      rw [Int.floor_le_iff]
      push_cast
      linarith
    rw [div_le_iff (by norm_num : (0:ℚ) < 100)]
    calc (⌊v * 100 + 1/2⌋ : ℚ) ≤ 100 := by exact_mod_cast hf
    _ = 1 * 100 := by norm_num

theorem scoreOptions_map_prefix (options : List EOption) (constraints : List Constraint)
    (priorities : List Priority) (settings : Settings) :
    ((scoreOptions options constraints priorities settings).rankedOptions.map
        RankedOption.score) <+:
      rankedSort (calculateWeightedScores
        (applyConstraints options constraints).validOptions priorities) := by
  by_cases hv : (applyConstraints options constraints).validOptions.length = 0
  · have hsc : calculateWeightedScores
        (applyConstraints options constraints).validOptions priorities = [] := by
      rw [List.length_eq_zero] at hv
      simp [calculateWeightedScores, normalizeOptionValues, hv]
    simp [scoreOptions, hv, hsc, rankedSort, List.insertionSort]
  · simp only [scoreOptions, if_neg hv]
    cases hm : settings.max_results with
    | none =>
        simp only
        rw [assignRanks_map_score]
    | some n =>
        simp only
        by_cases h0 : n = 0
        · rw [if_pos h0, assignRanks_map_score]
        · rw [if_neg h0]
          have : ((assignRanks 1 (rankedSort (calculateWeightedScores
              (applyConstraints options constraints).validOptions priorities))).take n).map
                RankedOption.score
              = ((assignRanks 1 (rankedSort (calculateWeightedScores
                  (applyConstraints options constraints).validOptions priorities))).map
                  RankedOption.score).take n := List.map_take _ _ _
          rw [this, assignRanks_map_score]
          exact List.take_prefix _ _

/-- Claim C5 (amended): the top recommendation confidence is
`roundToDecimals(0.5 + min(gap/100, 0.5), 2)` — rounded, not clamped as the
spec claims — which nevertheless always lies in [0.5, 1]; a single ranked
option gets confidence 1. -/
theorem claim5_confidence_amended (options : List EOption) (constraints : List Constraint)
    (priorities : List Priority) (settings : Settings)
    (hnum : ∀ so ∈ calculateWeightedScores
        (applyConstraints options constraints).validOptions priorities, so.totalScore.isSome) :
    (∀ r0 r1 rest,
        (scoreOptions options constraints priorities settings).rankedOptions = r0 :: r1 :: rest →
        ∀ t0 t1, r0.score.totalScore = some t0 → r1.score.totalScore = some t1 →
          (processComparison options constraints priorities settings).summary.topRecommendation.map
              (fun tr => tr.confidence)
            = some (some (roundToDecimals2 (1/2 + min ((t0 - t1)/100) (1/2))))
          ∧ 1/2 ≤ roundToDecimals2 (1/2 + min ((t0 - t1)/100) (1/2))
          ∧ roundToDecimals2 (1/2 + min ((t0 - t1)/100) (1/2)) ≤ 1)
    ∧ (∀ r0, (scoreOptions options constraints priorities settings).rankedOptions = [r0] →
        (processComparison options constraints priorities settings).summary.topRecommendation.map
            (fun tr => tr.confidence) = some (some 1))
    ∧ ((applyConstraints options constraints).validOptions = [] →
        (processComparison options constraints priorities settings).summary.topRecommendation
          = none) := by
  refine ⟨?_, ?_, ?_⟩
  · intro r0 r1 rest hre t0 t1 h0 h1
    have ht : t1 ≤ t0 := by
      have hpre := scoreOptions_map_prefix options constraints priorities settings
      rw [hre] at hpre
      have hsorted := insertionSort_pairwise (f := ScoredOption.totalScore)
        (calculateWeightedScores
          (applyConstraints options constraints).validOptions priorities) hnum
      have hpw : (List.map RankedOption.score (r0 :: r1 :: rest)).Pairwise
          (keyBefore ScoredOption.totalScore) :=
        hsorted.sublist hpre.sublist
      simp only [List.map_cons] at hpw
      have hk : keyBefore ScoredOption.totalScore r0.score r1.score :=
        List.rel_of_pairwise_cons hpw (by simp)
      exact (keyBefore_some_iff (f := ScoredOption.totalScore) h0 h1).mp hk
    have hconf : calculateConfidence
        (scoreOptions options constraints priorities settings).rankedOptions
        = some (roundToDecimals2 (1/2 + min ((t0 - t1)/100) (1/2))) := by
      rw [hre]
      show jsRound2 (jsAdd (some (mkRat 1 2))
        (jsMin ((jsSub r0.score.totalScore r1.score.totalScore).map
          (fun g => qDiv g (mkRat 100 1))) (some (mkRat 1 2)))) = _
      rw [h0, h1]
      show some (roundToDecimals2 (qAdd (mkRat 1 2)
        (qMinQ (qDiv (qSub t0 t1) (mkRat 100 1)) (mkRat 1 2)))) = _
      rw [qAdd_eq, qMinQ_eq, qDiv_eq, qSub_eq,
        show (mkRat 1 2 : ℚ) = 1/2 from by norm_num [Rat.mkRat_eq_div],
        show (mkRat 100 1 : ℚ) = 100 from by norm_num [Rat.mkRat_eq_div]]
    have hsum : (processComparison options constraints priorities settings).summary
        = generateSummary (scoreOptions options constraints priorities settings) := rfl
    have htop : (generateSummary
          (scoreOptions options constraints priorities settings)).topRecommendation
        = some ⟨r0.score.optionId,
            calculateConfidence (scoreOptions options constraints priorities settings).rankedOptions,
            generateRecommendationReasoning r0
              (scoreOptions options constraints priorities settings).rankedOptions⟩ := by
      unfold generateSummary
      rw [hre]
      rfl
    rw [hsum, htop, hconf] at *
    refine ⟨rfl, ?_, ?_⟩
    · exact (roundToDecimals2_bounds (by
        have hm : (0:ℚ) ≤ min ((t0 - t1)/100) (1/2) := le_min (by linarith) (by norm_num)
        linarith) (by
        have hm := min_le_right ((t0 - t1)/100) (1/2 : ℚ)
        linarith)).1
    · exact (roundToDecimals2_bounds (by
        have hm : (0:ℚ) ≤ min ((t0 - t1)/100) (1/2) := le_min (by linarith) (by norm_num)
        linarith) (by
        have hm := min_le_right ((t0 - t1)/100) (1/2 : ℚ)
        linarith)).2
  · intro r0 hre
    have htop : (generateSummary
          (scoreOptions options constraints priorities settings)).topRecommendation
        = some ⟨r0.score.optionId,
            calculateConfidence (scoreOptions options constraints priorities settings).rankedOptions,
            generateRecommendationReasoning r0
              (scoreOptions options constraints priorities settings).rankedOptions⟩ := by
      unfold generateSummary
      rw [hre]
      rfl
    have hconf : calculateConfidence
        (scoreOptions options constraints priorities settings).rankedOptions
        = some (mkRat 1 1) := by
      rw [hre]
      rfl
    show (generateSummary
        (scoreOptions options constraints priorities settings)).topRecommendation.map
        (fun tr => tr.confidence) = some (some 1)
    rw [htop, hconf]
    simp [show (mkRat 1 1 : ℚ) = 1 from by norm_num [Rat.mkRat_eq_div]]
  · intro hv
    have hlen : (applyConstraints options constraints).validOptions.length = 0 := by
      rw [hv]; rfl
    show (generateSummary
        (scoreOptions options constraints priorities settings)).topRecommendation = none
    unfold generateSummary
    simp [scoreOptions, hlen]

theorem claim5_confidence_amended_witness :
    (∀ so ∈ calculateWeightedScores
        (applyConstraints gapOptions []).validOptions gapPriorities, so.totalScore.isSome)
    ∧ ((∀ r0 r1 rest,
          (scoreOptions gapOptions [] gapPriorities {}).rankedOptions = r0 :: r1 :: rest →
          ∀ t0 t1, r0.score.totalScore = some t0 → r1.score.totalScore = some t1 →
            (processComparison gapOptions [] gapPriorities {}).summary.topRecommendation.map
                (fun tr => tr.confidence)
              = some (some (roundToDecimals2 (1/2 + min ((t0 - t1)/100) (1/2))))
            ∧ 1/2 ≤ roundToDecimals2 (1/2 + min ((t0 - t1)/100) (1/2))
            ∧ roundToDecimals2 (1/2 + min ((t0 - t1)/100) (1/2)) ≤ 1)
      ∧ (∀ r0, (scoreOptions gapOptions [] gapPriorities {}).rankedOptions = [r0] →
          (processComparison gapOptions [] gapPriorities {}).summary.topRecommendation.map
              (fun tr => tr.confidence) = some (some 1))
      ∧ ((applyConstraints gapOptions []).validOptions = [] →
          (processComparison gapOptions [] gapPriorities {}).summary.topRecommendation = none)) :=
  ⟨by decide, claim5_confidence_amended gapOptions [] gapPriorities {} (by decide)⟩

theorem calculateWeightedScores_tradeOffs (options : List EOption) (priorities : List Priority) :
    ∀ so ∈ calculateWeightedScores options priorities, so.tradeOffs = none := by
  intro so hso
  simp only [calculateWeightedScores, List.mem_map] at hso
  obtain ⟨no, _, rfl⟩ := hso
  rfl

/-- Claim C7 (amended): the pipeline recommendation reasoning is exactly
the score sentence plus the gap phrase; the "Key strength" clause never
appears because `generateSummary` is fed the scoring output, which carries
no `tradeOffs` annotation. -/
theorem claim7_reasoning_amended (options : List EOption) (constraints : List Constraint)
    (priorities : List Priority) (settings : Settings) :
    (processComparison options constraints priorities settings).summary.topRecommendation.map
        (fun tr => tr.reasoning)
      = ((scoreOptions options constraints priorities settings).rankedOptions.head?).map
          (fun r0 => "Scored " ++ jsNumToString r0.score.totalScore ++ "/100 overall. "
            ++ gapPhraseSpec
                (match (scoreOptions options constraints priorities settings).rankedOptions with
                  | _ :: r1 :: _ => jsSub r0.score.totalScore r1.score.totalScore
                  | _ => some (mkRat 0 1))) := by
  cases hre : (scoreOptions options constraints priorities settings).rankedOptions with
  | nil =>
      have htop : (generateSummary
            (scoreOptions options constraints priorities settings)).topRecommendation = none := by
        unfold generateSummary
        rw [hre]
        rfl
      show (generateSummary
          (scoreOptions options constraints priorities settings)).topRecommendation.map
          (fun tr => tr.reasoning) = _
      rw [htop]
      rfl
  | cons r0 rest =>
      have htro : r0.score.tradeOffs = none := by
        have hpre := scoreOptions_map_prefix options constraints priorities settings
        rw [hre] at hpre
        have hmem : r0.score ∈ rankedSort (calculateWeightedScores
            (applyConstraints options constraints).validOptions priorities) :=
          hpre.sublist.subset (by simp)
        exact calculateWeightedScores_tradeOffs _ _ _ ((List.mem_insertionSort _).mp hmem)
      have htop : (generateSummary
            (scoreOptions options constraints priorities settings)).topRecommendation
          = some ⟨r0.score.optionId,
              calculateConfidence
                (scoreOptions options constraints priorities settings).rankedOptions,
              generateRecommendationReasoning r0
                (scoreOptions options constraints priorities settings).rankedOptions⟩ := by
        unfold generateSummary
        rw [hre]
        rfl
      show (generateSummary
          (scoreOptions options constraints priorities settings)).topRecommendation.map
          (fun tr => tr.reasoning) = _
      rw [htop]
      simp only [Option.map_some', List.head?_cons]
      congr 1
      unfold generateRecommendationReasoning gapPhraseSpec
      rw [htro, hre]
      cases rest <;> rfl

theorem formatNumeric_eq (x : Option ℚ) (criteria : String) :
    formatNumericDisplay x criteria = formatNumericSpec x criteria := by
  unfold formatNumericDisplay formatNumericSpec formatRulesSpec
  simp only [applyFormatRules, List.any_cons, List.any_nil, Bool.or_false, Bool.or_assoc,
    renderCurrency, renderPercent, renderLocale]
  split_ifs <;> rfl

/-- Claim C9 (amended): `formatDisplayValue` renders numbers by a
case-sensitive substring scan of the criterion name, first match winning:
names containing "cost" or "price" render as currency (`$` plus three
`toFixed` decimals); names containing "percent", "reliability" or "uptime"
append `%` to the plain number; names containing "performance" or "iops"
use `toLocaleString`; every other name falls to the magnitude fallback —
`toFixed(3)` below 1, `toFixed(1)` below 100, grouped rounded integer at
or above 100. Non-numeric values are stringified; capitalised names such
as "Cost" match no keyword and fall through. -/
theorem claim9_format_amended (value : Option JSON) (criteria : String) :
    formatDisplayValue value criteria = formatDisplaySpec value criteria := by
  cases value with
  | none => rfl
  | some v =>
      cases v with
      | num q => exact formatNumeric_eq (some q) criteria
      | nan => exact formatNumeric_eq none criteria
      | bool b => rfl
      | str s => rfl
      | null => rfl
      | arr xs => rfl
      | obj fields => rfl

/-- Claim C10 (amended): with a degenerate spread (max = min) every
percentile is 50 and, with more than one option, the comparison label is
"near average"; whenever the raw value coerces to a number the percentile
is a number in [0, 100]. -/
theorem claim10_percentile_amended :
    (∀ (v : JSON) (st : Stats) (b : Bool), st.max = st.min →
        calculatePercentile v st b = some 50)
    ∧ (∀ (p : Priority) (rawValue : JSON) (score : Option ℚ) (st : Stats) (name : String),
        st.max = st.min → st.count > 1 →
        (generateCriteriaReason p rawValue score (some st) name).details.map
            (fun d => d.comparison) = some "near average")
    ∧ (∀ (v : JSON) (st : Stats) (b : Bool) (q : ℚ), jsToNumber v = some q →
        ∃ r, calculatePercentile v st b = some r ∧ 0 ≤ r ∧ r ≤ 100) := by
  have h50 : ∀ (v : JSON) (st : Stats) (b : Bool), st.max = st.min →
      calculatePercentile v st b = some 50 := by
    intro v st b h
    unfold calculatePercentile
    have hz : (qSub st.max st.min).num = 0 := by
      rw [h, qSub_eq, sub_self]
      rfl
    rw [if_pos hz]
    norm_num [Rat.mkRat_eq_div]
  refine ⟨h50, ?_, ?_⟩
  · intro p rawValue score st name hminmax hcount
    have e50 : ∀ b, calculatePercentile rawValue st b = some 50 := fun b => h50 rawValue st b hminmax
    have e80 : jsGeB (some (50 : ℚ)) (some (mkRat 80 1)) = false := by decide
    have e60 : jsGeB (some (50 : ℚ)) (some (mkRat 60 1)) = false := by decide
    have e40 : jsGeB (some (50 : ℚ)) (some (mkRat 40 1)) = true := by decide
    unfold generateCriteriaReason
    simp only [hcount, if_true, e50, e80, e60, e40, Bool.false_eq_true, if_false]
    rfl
  · intro v st b q hq
    unfold calculatePercentile
    by_cases hz : (qSub st.max st.min).num = 0
    · rw [if_pos hz]
      exact ⟨mkRat 50 1, rfl, by norm_num [Rat.mkRat_eq_div], by norm_num [Rat.mkRat_eq_div]⟩
    · rw [if_neg hz]
      rw [hq]
      cases b with
      | false =>
          refine ⟨_, rfl, ?_, ?_⟩
          · rw [qMaxQ_eq]
            calc (0 : ℚ) ≤ mkRat 0 1 := by norm_num [Rat.mkRat_eq_div]
            _ ≤ max (mkRat 0 1) _ := le_max_left _ _
          · rw [qMaxQ_eq, qMinQ_eq]
            refine max_le (by norm_num [Rat.mkRat_eq_div]) ?_
            calc min (mkRat 100 1) _ ≤ mkRat 100 1 := min_le_left _ _
            _ ≤ 100 := by norm_num [Rat.mkRat_eq_div]
      | true =>
          refine ⟨_, rfl, ?_, ?_⟩
          · rw [qMaxQ_eq]
            calc (0 : ℚ) ≤ mkRat 0 1 := by norm_num [Rat.mkRat_eq_div]
            _ ≤ max (mkRat 0 1) _ := le_max_left _ _
          · rw [qMaxQ_eq, qMinQ_eq]
            refine max_le (by norm_num [Rat.mkRat_eq_div]) ?_
            calc min (mkRat 100 1) _ ≤ mkRat 100 1 := min_le_left _ _
            _ ≤ 100 := by norm_num [Rat.mkRat_eq_div]

theorem lookupField_upsert_ne {l : List (String × β)} {k k' : String} (v : β) (h : k' ≠ k) :
    lookupField (upsert l k v) k' = lookupField l k' := by
  induction l with
  | nil =>
      simp only [upsert, lookupField]
      rw [if_neg (fun hc : k = k' => h hc.symm)]
  | cons e rest ih =>
      obtain ⟨ek, ev⟩ := e
      simp only [upsert]
      by_cases he : ek = k
      · rw [if_pos he]
        simp only [lookupField]
        rw [if_neg (fun hc : k = k' => h hc.symm), if_neg (he ▸ fun hc : ek = k' => h (he ▸ hc).symm)]
      · rw [if_neg he]
        simp only [lookupField]
        by_cases he2 : ek = k'
        · rw [if_pos he2, if_pos he2]
        · rw [if_neg he2, if_neg he2, ih]

theorem scoreFold_reasons (criteriaStats : List (String × Stats)) (no : NOption)
    (ps : List Priority) (acc : ScoreAcc) :
    (ps.foldl (scoreStep criteriaStats no) acc).reasons
      = acc.reasons ++ ps.map (fun p =>
          match calculateCriteriaScore no p criteriaStats with
          | some r => r.reason
          | none => missingReason p no.base.name) := by
  induction ps generalizing acc with
  | nil => simp
  | cons p ps ih =>
      simp only [List.foldl_cons, List.map_cons, ih]
      unfold scoreStep
      cases calculateCriteriaScore no p criteriaStats <;> simp

theorem scoreFold_total (criteriaStats : List (String × Stats)) (no : NOption)
    (ps : List Priority) (acc : ScoreAcc) :
    (ps.foldl (scoreStep criteriaStats no) acc).total
      = ps.foldl (fun t p =>
          match calculateCriteriaScore no p criteriaStats with
          | some r => jsAdd t (jsMul r.score (some p.weight))
          | none => t) acc.total := by
  induction ps generalizing acc with
  | nil => rfl
  | cons p ps ih =>
      simp only [List.foldl_cons, ih]
      unfold scoreStep
      cases calculateCriteriaScore no p criteriaStats <;> simp

theorem scoreFold_criteriaScores_none (criteriaStats : List (String × Stats)) (no : NOption)
    (ps : List Priority) (acc : ScoreAcc) (key : String)
    (hacc : lookupField acc.criteriaScores key = none)
    (hfail : ∀ p ∈ ps, p.criteria = key → calculateCriteriaScore no p criteriaStats = none) :
    lookupField (ps.foldl (scoreStep criteriaStats no) acc).criteriaScores key = none := by
  induction ps generalizing acc with
  | nil => exact hacc
  | cons p ps ih =>
      simp only [List.foldl_cons]
      refine ih _ ?_ (fun q hq => hfail q (by simp [hq]))
      unfold scoreStep
      cases hc : calculateCriteriaScore no p criteriaStats with
      | none => exact hacc
      | some r =>
          have hne : key ≠ p.criteria := by
            intro he
            have := hfail p (by simp) he.symm
            rw [this] at hc
            exact Option.noConfusion hc
          simp only
          rw [lookupField_upsert_ne _ hne]
          exact hacc

theorem calculateCriteriaScore_none_of_absent (no : NOption) (criteriaStats : List (String × Stats))
    (c : String)
    (habs : getNestedValue no.normalizedFeatures c = none
      ∨ getNestedValue no.base.features c = none) :
    ∀ q : Priority, q.criteria = c → calculateCriteriaScore no q criteriaStats = none := by
  intro q hq
  unfold calculateCriteriaScore
  rw [hq]
  rcases habs with h | h
  · rw [h]
  · rw [h]
    cases getNestedValue no.normalizedFeatures c <;> rfl

theorem foldTotal_eraseIdx (criteriaStats : List (String × Stats)) (no : NOption)
    (ps : List Priority) (i : ℕ) (hi : i < ps.length)
    (hfail : calculateCriteriaScore no (ps.get ⟨i, hi⟩) criteriaStats = none) (t0 : Option ℚ) :
    (ps.eraseIdx i).foldl (fun t p =>
        match calculateCriteriaScore no p criteriaStats with
        | some r => jsAdd t (jsMul r.score (some p.weight))
        | none => t) t0
      = ps.foldl (fun t p =>
          match calculateCriteriaScore no p criteriaStats with
          | some r => jsAdd t (jsMul r.score (some p.weight))
          | none => t) t0 := by
  induction ps generalizing i t0 with
  | nil => simp at hi
  | cons p ps ih =>
      cases i with
      | zero =>
          simp only [List.eraseIdx, List.foldl_cons]
          simp only [List.get] at hfail
          rw [hfail]
      | succ i =>
          simp only [List.eraseIdx, List.foldl_cons]
          exact ih i (by simpa using hi) (by simpa using hfail) _

theorem scoreTotal_eraseIdx (criteriaStats : List (String × Stats)) (no : NOption)
    (ps : List Priority) (i : ℕ) (hi : i < ps.length)
    (hfail : calculateCriteriaScore no (ps.get ⟨i, hi⟩) criteriaStats = none) :
    scoreTotal criteriaStats no (ps.eraseIdx i) = scoreTotal criteriaStats no ps := by
  unfold scoreTotal
  rw [scoreFold_total, scoreFold_total]
  exact foldTotal_eraseIdx criteriaStats no ps i hi hfail _

/-- Claim C8: a priority whose criterion is absent from an option (raw or
normalized read undefined) contributes a neutral missing_data reason with
weightContribution 0 at its position, adds no criteriaScores entry, and
leaves the running total exactly as if the priority were absent. -/
theorem claim8_missing_data (options : List EOption) (priorities : List Priority)
    (j i : ℕ) (hj : j < options.length) (hi : i < priorities.length)
    (habs : getNestedValue (normalizeOne (criteriaRanges options priorities) priorities
          (options.get ⟨j, hj⟩)).normalizedFeatures (priorities.get ⟨i, hi⟩).criteria = none
      ∨ getNestedValue (options.get ⟨j, hj⟩).features (priorities.get ⟨i, hi⟩).criteria = none) :
    ∃ so, (calculateWeightedScores options priorities).get? j = some so
      ∧ so.reasons.get? i = some ⟨(priorities.get ⟨i, hi⟩).criteria, "missing_data",
            "No " ++ (priorities.get ⟨i, hi⟩).criteria ++ " data available for "
              ++ (options.get ⟨j, hj⟩).name, none, "neutral", some (mkRat 0 1)⟩
      ∧ lookupField so.criteriaScores (priorities.get ⟨i, hi⟩).criteria = none
      ∧ so.totalScore = jsRound2 (scoreTotal (calculateCriteriaStatistics options priorities)
            (normalizeOne (criteriaRanges options priorities) priorities (options.get ⟨j, hj⟩))
            priorities)
      ∧ scoreTotal (calculateCriteriaStatistics options priorities)
            (normalizeOne (criteriaRanges options priorities) priorities (options.get ⟨j, hj⟩))
            (priorities.eraseIdx i)
          = scoreTotal (calculateCriteriaStatistics options priorities)
            (normalizeOne (criteriaRanges options priorities) priorities (options.get ⟨j, hj⟩))
            priorities := by
  have hccs := calculateCriteriaScore_none_of_absent
    (normalizeOne (criteriaRanges options priorities) priorities (options.get ⟨j, hj⟩))
    (calculateCriteriaStatistics options priorities)
    (priorities.get ⟨i, hi⟩).criteria habs
  have hfailp : calculateCriteriaScore
      (normalizeOne (criteriaRanges options priorities) priorities (options.get ⟨j, hj⟩))
      (priorities.get ⟨i, hi⟩) (calculateCriteriaStatistics options priorities) = none :=
    hccs _ rfl
  refine ⟨scoreOne (calculateCriteriaStatistics options priorities) priorities
    (normalizeOne (criteriaRanges options priorities) priorities (options.get ⟨j, hj⟩)),
    ?_, ?_, ?_, rfl, ?_⟩
  · unfold calculateWeightedScores normalizeOptionValues
    rw [List.get?_map, List.get?_map, List.get?_eq_get hj]
    rfl
  · show ((priorities.foldl (scoreStep (calculateCriteriaStatistics options priorities)
        (normalizeOne (criteriaRanges options priorities) priorities (options.get ⟨j, hj⟩)))
        ⟨[], [], some (mkRat 0 1)⟩).reasons).get? i = _
    rw [scoreFold_reasons]
    simp only [List.nil_append]
    rw [List.get?_map, List.get?_eq_get hi]
    simp only [Option.map_some']
    rw [hfailp]
    rfl
  · show lookupField (priorities.foldl (scoreStep (calculateCriteriaStatistics options priorities)
        (normalizeOne (criteriaRanges options priorities) priorities (options.get ⟨j, hj⟩)))
        ⟨[], [], some (mkRat 0 1)⟩).criteriaScores _ = none
    exact scoreFold_criteriaScores_none _ _ _ _ _ rfl (fun q _ hq => hccs q hq)
  · exact scoreTotal_eraseIdx _ _ priorities i hi hfailp

theorem claim8_missing_data_witness :
    ((0 : ℕ) < scenarioAOptions.length)
    ∧ ((1 : ℕ) < [(⟨"cost", mkRat 1 2, "minimize"⟩ : Priority),
        ⟨"nope", mkRat 1 2, "maximize"⟩].length)
    ∧ (getNestedValue (normalizeOne
          (criteriaRanges scenarioAOptions
            [⟨"cost", mkRat 1 2, "minimize"⟩, ⟨"nope", mkRat 1 2, "maximize"⟩])
          [⟨"cost", mkRat 1 2, "minimize"⟩, ⟨"nope", mkRat 1 2, "maximize"⟩]
          (scenarioAOptions.get ⟨0, by decide⟩)).normalizedFeatures
          (([(⟨"cost", mkRat 1 2, "minimize"⟩ : Priority),
              ⟨"nope", mkRat 1 2, "maximize"⟩].get ⟨1, by decide⟩)).criteria = none
      ∨ getNestedValue (scenarioAOptions.get ⟨0, by decide⟩).features
          (([(⟨"cost", mkRat 1 2, "minimize"⟩ : Priority),
              ⟨"nope", mkRat 1 2, "maximize"⟩].get ⟨1, by decide⟩)).criteria = none)
    ∧ (∃ so, (calculateWeightedScores scenarioAOptions
          [⟨"cost", mkRat 1 2, "minimize"⟩, ⟨"nope", mkRat 1 2, "maximize"⟩]).get? 0 = some so
        ∧ so.reasons.get? 1 = some ⟨"nope", "missing_data",
              "No " ++ "nope" ++ " data available for " ++ "Option 1", none, "neutral",
              some (mkRat 0 1)⟩
        ∧ lookupField so.criteriaScores "nope" = none) := by
  refine ⟨by decide, by decide, Or.inr rfl, ?_⟩
  obtain ⟨so, h1, h2, h3, _, _⟩ := claim8_missing_data scenarioAOptions
    [⟨"cost", mkRat 1 2, "minimize"⟩, ⟨"nope", mkRat 1 2, "maximize"⟩] 0 1
    (by decide) (by decide) (Or.inr rfl)
  exact ⟨so, h1, h2, h3⟩

theorem complianceFold_reasons (o : EOption) (cs : List Constraint)
    (acc : List ConstraintReason × List String × Bool) :
    (cs.foldl (fun acc c =>
        let passes := evaluateConstraint o c
        let reason := generateConstraintReason o c passes
        (acc.1 ++ [reason],
         (if passes then acc.2.1 else acc.2.1 ++ [c.criteria]),
         (if ¬passes ∧ requiredB c then false else acc.2.2))) acc).1
      = acc.1 ++ cs.map (fun c => generateConstraintReason o c (evaluateConstraint o c)) := by
  induction cs generalizing acc with
  | nil => simp
  | cons c cs ih =>
      simp only [List.foldl_cons, List.map_cons, ih]
      simp

theorem complianceFold_passed (o : EOption) (cs : List Constraint)
    (acc : List ConstraintReason × List String × Bool) :
    ((cs.foldl (fun acc c =>
        let passes := evaluateConstraint o c
        let reason := generateConstraintReason o c passes
        (acc.1 ++ [reason],
         (if passes then acc.2.1 else acc.2.1 ++ [c.criteria]),
         (if ¬passes ∧ requiredB c then false else acc.2.2))) acc).2.2 = true
      ↔ acc.2.2 = true ∧ ∀ c ∈ cs, requiredB c = true → evaluateConstraint o c = true) := by
  induction cs generalizing acc with
  | nil => simp
  | cons c cs ih =>
      simp only [List.foldl_cons]
      rw [ih]
      constructor
      · rintro ⟨hstep, hrest⟩
        by_cases hp : evaluateConstraint o c = true
        · refine ⟨?_, ?_⟩
          · simpa [hp] using hstep
          · intro c' hc' hr
            rcases List.mem_cons.mp hc' with rfl | hc'
            · exact hp
            · exact hrest c' hc' hr
        · by_cases hr : requiredB c = true
          · exfalso
            simp [hp, hr] at hstep
          · refine ⟨?_, ?_⟩
            · simpa [hp, hr] using hstep
            · intro c' hc' hr'
              rcases List.mem_cons.mp hc' with rfl | hc'
              · exact absurd hr' hr
              · exact hrest c' hc' hr'
      · rintro ⟨hacc, hall⟩
        refine ⟨?_, fun c' hc' hr => hall c' (by simp [hc']) hr⟩
        by_cases hp : evaluateConstraint o c = true
        · simpa [hp] using hacc
        · have hr : ¬ requiredB c = true := fun hr => hp (hall c (by simp) hr)
          simpa [hp, hr] using hacc

theorem complianceFor_reasons (o : EOption) (cs : List Constraint) :
    (complianceFor o cs).constraintReasons
      = cs.map (fun c => generateConstraintReason o c (evaluateConstraint o c)) := by
  show (cs.foldl (fun acc c =>
      let passes := evaluateConstraint o c
      let reason := generateConstraintReason o c passes
      (acc.1 ++ [reason],
       (if passes then acc.2.1 else acc.2.1 ++ [c.criteria]),
       (if ¬passes ∧ requiredB c then false else acc.2.2))) ⟨[], [], true⟩).1 = _
  rw [complianceFold_reasons o cs ⟨[], [], true⟩]
  rfl

theorem complianceFor_passed (o : EOption) (cs : List Constraint) :
    ((complianceFor o cs).passed = true
      ↔ ∀ c ∈ cs, requiredB c = true → evaluateConstraint o c = true) := by
  show ((cs.foldl (fun acc c =>
      let passes := evaluateConstraint o c
      let reason := generateConstraintReason o c passes
      (acc.1 ++ [reason],
       (if passes then acc.2.1 else acc.2.1 ++ [c.criteria]),
       (if ¬passes ∧ requiredB c then false else acc.2.2))) ⟨[], [], true⟩).2.2 = true ↔ _)
  rw [complianceFold_passed o cs ⟨[], [], true⟩]
  simp

theorem upsert_append {l : List (String × β)} {k : String} (v : β)
    (h : k ∉ l.map Prod.fst) : upsert l k v = l ++ [(k, v)] := by
  induction l with
  | nil => rfl
  | cons e rest ih =>
      obtain ⟨ek, ev⟩ := e
      have hne : ek ≠ k := by
        intro he
        exact h (by simp [he])
      simp only [upsert, if_neg hne, List.cons_append]
      rw [ih (fun hm => h (by simp [hm]))]

theorem applyFold_valid (cs : List Constraint) (options : List EOption) (acc : ApplyResults) :
    (options.foldl (fun acc o =>
        let cr := complianceFor o cs
        ⟨(if cr.passed then acc.validOptions ++ [{ o with constraintCompliance := some cr }]
          else acc.validOptions),
         upsert acc.allResults o.id cr⟩) acc).validOptions
      = acc.validOptions ++ options.filterMap (fun o =>
          if (complianceFor o cs).passed then
            some { o with constraintCompliance := some (complianceFor o cs) }
          else none) := by
  induction options generalizing acc with
  | nil => simp
  | cons o rest ih =>
      simp only [List.foldl_cons, List.filterMap_cons]
      by_cases hp : (complianceFor o cs).passed
      · rw [if_pos hp] at *
        simp only [ih]
        simp [hp]
      · rw [if_neg hp] at *
        simp only [ih]
        simp [hp]

theorem applyConstraints_validOptions (options : List EOption) (cs : List Constraint) :
    (applyConstraints options cs).validOptions
      = options.filterMap (fun o =>
          if (complianceFor o cs).passed then
            some { o with constraintCompliance := some (complianceFor o cs) }
          else none) := by
  unfold applyConstraints
  rw [applyFold_valid cs options ⟨[], []⟩]
  rfl

theorem applyFold_allResults (cs : List Constraint) (options : List EOption) (acc : ApplyResults)
    (hids : (options.map EOption.id).Nodup)
    (hdisj : ∀ o ∈ options, o.id ∉ acc.allResults.map Prod.fst) :
    (options.foldl (fun acc o =>
        let cr := complianceFor o cs
        ⟨(if cr.passed then acc.validOptions ++ [{ o with constraintCompliance := some cr }]
          else acc.validOptions),
         upsert acc.allResults o.id cr⟩) acc).allResults
      = acc.allResults ++ options.map (fun o => (o.id, complianceFor o cs)) := by
  induction options generalizing acc with
  | nil => simp
  | cons o rest ih =>
      simp only [List.map_cons] at hids
      simp only [List.foldl_cons, List.map_cons]
      have hstep : upsert acc.allResults o.id (complianceFor o cs)
          = acc.allResults ++ [(o.id, complianceFor o cs)] :=
        upsert_append _ (hdisj o (by simp))
      rw [hstep]
      rw [ih _ hids.of_cons ?side]
      case side =>
        intro o' ho'
        simp only [List.map_append, List.mem_append]
        push_neg
        refine ⟨hdisj o' (by simp [ho']), ?_⟩
        have hne : o'.id ≠ o.id := by
          have hnotin : o.id ∉ rest.map EOption.id := (List.nodup_cons.mp hids).1
          intro he
          exact hnotin (he ▸ List.mem_map_of_mem EOption.id ho')
        simpa using hne
      simp

theorem applyConstraints_allResults (options : List EOption) (cs : List Constraint)
    (hids : (options.map EOption.id).Nodup) :
    (applyConstraints options cs).allResults
      = options.map (fun o => (o.id, complianceFor o cs)) := by
  unfold applyConstraints
  rw [applyFold_allResults cs options ⟨[], []⟩ hids (by simp)]
  rfl

theorem lookupField_map_id (cs : List Constraint) (options : List EOption)
    (hids : (options.map EOption.id).Nodup) (o : EOption) (ho : o ∈ options) :
    lookupField (options.map (fun o => (o.id, complianceFor o cs))) o.id
      = some (complianceFor o cs) := by
  induction options with
  | nil => simp at ho
  | cons o' rest ih =>
      simp only [List.map_cons, lookupField]
      rcases List.mem_cons.mp ho with rfl | ho'
      · rw [if_pos rfl]
      · by_cases he : o'.id = o.id
        · exfalso
          rw [List.map_cons, List.nodup_cons] at hids
          exact hids.1 (he ▸ List.mem_map_of_mem EOption.id ho')
        · rw [if_neg he]
          exact ih (by simpa using (List.map_cons EOption.id o' rest ▸ hids).of_cons) ho'


theorem scoreOne_constraintCompliance (stats : List (String × Stats)) (ps : List Priority)
    (no : NOption) :
    (scoreOne stats ps no).constraintCompliance
      = no.base.constraintCompliance.getD ⟨true, [], []⟩ := rfl

theorem scoreOne_optionId (stats : List (String × Stats)) (ps : List Priority) (no : NOption) :
    (scoreOne stats ps no).optionId = no.base.id := rfl

theorem normalizeOne_base (ranges : List (String × RangeInfo)) (ps : List Priority)
    (o : EOption) : (normalizeOne ranges ps o).base = o := rfl

theorem mem_assignRanks {ro : RankedOption} :
    ∀ {i : ℕ} {l : List ScoredOption}, ro ∈ assignRanks i l → ro.score ∈ l := by
  intro i l
  induction l generalizing i with
  | nil => intro h; simp [assignRanks] at h
  | cons a rest ih =>
      intro h
      rcases List.mem_cons.mp h with rfl | h
      · simp
      · exact List.mem_cons_of_mem _ (ih h)

theorem scoreOptions_constraintResults (options : List EOption) (constraints : List Constraint)
    (priorities : List Priority) (settings : Settings) :
    (scoreOptions options constraints priorities settings).constraintResults
      = (applyConstraints options constraints).allResults := by
  by_cases h : (applyConstraints options constraints).validOptions.length = 0 <;>
    simp [scoreOptions, h]

theorem mem_scoreOptions_ranked {ro : RankedOption} (options : List EOption)
    (constraints : List Constraint) (priorities : List Priority) (settings : Settings)
    (h : ro ∈ (scoreOptions options constraints priorities settings).rankedOptions) :
    ∃ vo ∈ (applyConstraints options constraints).validOptions,
      ro.score = scoreOne
        (calculateCriteriaStatistics (applyConstraints options constraints).validOptions
          priorities)
        priorities
        (normalizeOne
          (criteriaRanges (applyConstraints options constraints).validOptions priorities)
          priorities vo) := by
  by_cases hlen : (applyConstraints options constraints).validOptions.length = 0
  · simp [scoreOptions, hlen] at h
  · have h' : ro ∈ assignRanks 1 (rankedSort (calculateWeightedScores
        (applyConstraints options constraints).validOptions priorities)) := by
      simp only [scoreOptions, if_neg hlen] at h
      cases hm : settings.max_results with
      | none => simp only [hm] at h; exact h
      | some n =>
          simp only [hm] at h
          by_cases hn : n = 0
          · rw [if_pos hn] at h; exact h
          · rw [if_neg hn] at h; exact List.mem_of_mem_take h
    have h2 := mem_assignRanks h'
    have h3 : ro.score ∈ calculateWeightedScores
        (applyConstraints options constraints).validOptions priorities :=
      (List.mem_insertionSort _).mp h2
    rw [calculateWeightedScores] at h3
    obtain ⟨no, hno, hso⟩ := List.mem_map.mp h3
    rw [normalizeOptionValues] at hno
    obtain ⟨vo, hvo, hnov⟩ := List.mem_map.mp hno
    exact ⟨vo, hvo, by rw [← hso, ← hnov]⟩

/-- Claim C1: required constraints filter the ranked list, and every input
option gets a full compliance record: it is retrievable from
`constraintResults` by id, carries one reason per constraint, and its
`passed` flag is true exactly when every required constraint is satisfied. -/
theorem claim1_constraint_filtering (options : List EOption) (constraints : List Constraint)
    (priorities : List Priority) (settings : Settings)
    (hids : (options.map EOption.id).Nodup) :
    (∀ ro ∈ (scoreOptions options constraints priorities settings).rankedOptions,
        ro.score.constraintCompliance.passed = true
        ∧ ∃ o ∈ options, o.id = ro.score.optionId
            ∧ ∀ c ∈ constraints, requiredB c = true → evaluateConstraint o c = true)
    ∧ (∀ o ∈ options,
        lookupField (scoreOptions options constraints priorities settings).constraintResults o.id
          = some (complianceFor o constraints)
        ∧ (complianceFor o constraints).constraintReasons
            = constraints.map (fun c => generateConstraintReason o c (evaluateConstraint o c))
        ∧ ((complianceFor o constraints).passed = true
            ↔ ∀ c ∈ constraints, requiredB c = true → evaluateConstraint o c = true)) := by
  constructor
  · intro ro hro
    obtain ⟨vo, hvo, hsc⟩ := mem_scoreOptions_ranked options constraints priorities settings hro
    rw [applyConstraints_validOptions] at hvo
    obtain ⟨o, ho, hfo⟩ := List.mem_filterMap.mp hvo
    by_cases hp : (complianceFor o constraints).passed = true
    · rw [if_pos hp, Option.some_inj] at hfo
      subst hfo
      have hcc : ro.score.constraintCompliance = complianceFor o constraints := by
        rw [hsc, scoreOne_constraintCompliance, normalizeOne_base]
        rfl
      have hid : ro.score.optionId = o.id := by
        rw [hsc, scoreOne_optionId, normalizeOne_base]
      refine ⟨by rw [hcc]; exact hp, o, ho, hid.symm, (complianceFor_passed o constraints).mp hp⟩
    · rw [if_neg hp] at hfo
      exact absurd hfo (by simp)
  · intro o ho
    refine ⟨?_, complianceFor_reasons o constraints, complianceFor_passed o constraints⟩
    rw [scoreOptions_constraintResults, applyConstraints_allResults options constraints hids]
    exact lookupField_map_id constraints options hids o ho

theorem claim1_constraint_filtering_witness :
    ((scenarioAOptions.map EOption.id).Nodup)
    ∧ ((∀ ro ∈ (scoreOptions scenarioAOptions scenarioAConstraints scenarioAPriorities
            ⟨none⟩).rankedOptions,
          ro.score.constraintCompliance.passed = true
          ∧ ∃ o ∈ scenarioAOptions, o.id = ro.score.optionId
              ∧ ∀ c ∈ scenarioAConstraints, requiredB c = true → evaluateConstraint o c = true)
      ∧ (∀ o ∈ scenarioAOptions,
          lookupField (scoreOptions scenarioAOptions scenarioAConstraints scenarioAPriorities
              ⟨none⟩).constraintResults o.id
            = some (complianceFor o scenarioAConstraints)
          ∧ (complianceFor o scenarioAConstraints).constraintReasons
              = scenarioAConstraints.map
                  (fun c => generateConstraintReason o c (evaluateConstraint o c))
          ∧ ((complianceFor o scenarioAConstraints).passed = true
              ↔ ∀ c ∈ scenarioAConstraints,
                  requiredB c = true → evaluateConstraint o c = true))) :=
  ⟨by decide,
   claim1_constraint_filtering scenarioAOptions scenarioAConstraints scenarioAPriorities
     ⟨none⟩ (by decide)⟩

theorem claim10_percentile_amended_witness :
    (calculatePercentile (JSON.num (mkRat 5 1)) ⟨mkRat 5 1, mkRat 5 1, mkRat 5 1, mkRat 5 1, 3⟩
        true = some 50)
    ∧ ((generateCriteriaReason ⟨"x", mkRat 1 1, "maximize"⟩ (JSON.num (mkRat 5 1))
          (some (mkRat 1 2)) (some ⟨mkRat 5 1, mkRat 5 1, mkRat 5 1, mkRat 5 1, 3⟩)
          "x").details.map (fun d => d.comparison) = some "near average")
    ∧ (∃ r, calculatePercentile (JSON.num (mkRat 7 1))
          ⟨mkRat 1 1, mkRat 9 1, mkRat 5 1, mkRat 5 1, 3⟩ true = some r ∧ 0 ≤ r ∧ r ≤ 100) :=
  ⟨claim10_percentile_amended.1 (JSON.num (mkRat 5 1))
      ⟨mkRat 5 1, mkRat 5 1, mkRat 5 1, mkRat 5 1, 3⟩ true rfl,
   claim10_percentile_amended.2.1 ⟨"x", mkRat 1 1, "maximize"⟩ (JSON.num (mkRat 5 1))
      (some (mkRat 1 2)) ⟨mkRat 5 1, mkRat 5 1, mkRat 5 1, mkRat 5 1, 3⟩ "x" rfl (by decide),
   claim10_percentile_amended.2.2 (JSON.num (mkRat 7 1))
      ⟨mkRat 1 1, mkRat 9 1, mkRat 5 1, mkRat 5 1, 3⟩ true (mkRat 7 1) rfl⟩

theorem roundToDecimals2_err (x : ℚ) : |roundToDecimals2 x - x| ≤ 1/200 := by
  rw [roundToDecimals2_eq]
  rw [abs_le]
  have h1 : (⌊x * 100 + 1/2⌋ : ℚ) ≤ x * 100 + 1/2 := Int.floor_le _
  have h2 : x * 100 + 1/2 - 1 < (⌊x * 100 + 1/2⌋ : ℚ) := Int.sub_one_lt_floor _
  constructor <;> linarith

theorem generateCriteriaReason_weightContribution (p : Priority) (rv : JSON)
    (score : Option ℚ) (stats : Option Stats) (name : String) :
    (generateCriteriaReason p rv score stats name).weightContribution
      = jsRound2 (jsMul score (some p.weight)) := rfl

theorem calculateCriteriaScore_score_wc (no : NOption) (p : Priority)
    (cs : List (String × Stats)) (r : CCSResult)
    (h : calculateCriteriaScore no p cs = some r) :
    ∃ s1 : Option ℚ, r.score = jsRound2 s1
      ∧ r.reason.weightContribution = jsRound2 (jsMul s1 (some p.weight)) := by
  unfold calculateCriteriaScore at h
  cases hn : getNestedValue no.normalizedFeatures p.criteria with
  | none => rw [hn] at h; exact absurd h (by simp)
  | some nv =>
      cases hr : getNestedValue no.base.features p.criteria with
      | none => rw [hn, hr] at h; exact absurd h (by simp)
      | some rv =>
          rw [hn, hr] at h
          rw [Option.some_inj] at h
          refine ⟨(if p.optimization = "minimize"
              then jsSub (some (mkRat 100 1)) (jsMul (jsToNumber nv) (some (mkRat 100 1)))
              else jsMul (jsToNumber nv) (some (mkRat 100 1))), ?_, ?_⟩
          · rw [← h]
          · rw [← h]
            exact generateCriteriaReason_weightContribution p rv _ _ no.base.name

theorem c6_stepT_none (cs : List (String × Stats)) (no : NOption) (ps : List Priority) :
    ps.foldl (fun t p =>
        match calculateCriteriaScore no p cs with
        | some r => jsAdd t (jsMul r.score (some p.weight))
        | none => t) none = none := by
  induction ps with
  | nil => rfl
  | cons p ps ih =>
      simp only [List.foldl_cons]
      cases calculateCriteriaScore no p cs <;> exact ih

theorem c6_fold (cs : List (String × Stats)) (no : NOption) :
    ∀ (ps : List Priority), (∀ p ∈ ps, 0 ≤ p.weight ∧ p.weight ≤ 1) →
    ∀ (t0 u0 t : ℚ),
      ps.foldl (fun t p =>
          match calculateCriteriaScore no p cs with
          | some r => jsAdd t (jsMul r.score (some p.weight))
          | none => t) (some t0) = some t →
      ∃ u : ℚ,
        (ps.map (fun p =>
            match calculateCriteriaScore no p cs with
            | some r => r.reason
            | none => missingReason p no.base.name)).foldl
          (fun t r => jsAdd t r.weightContribution) (some u0) = some u
        ∧ |t - u| ≤ |t0 - u0| + ps.length / 100 := by
  intro ps
  induction ps with
  | nil =>
      intro _ t0 u0 t ht
      rw [List.foldl_nil, Option.some_inj] at ht
      refine ⟨u0, rfl, ?_⟩
      rw [← ht]
      simp
  | cons p ps ih =>
      intro hw t0 u0 t ht
      simp only [List.foldl_cons, List.map_cons] at ht ⊢
      obtain ⟨hw0, hw1⟩ := hw p (List.mem_cons_self p ps)
      cases hc : calculateCriteriaScore no p cs with
      | none =>
          simp only [hc] at ht
          obtain ⟨u, hu, hb⟩ :=
            ih (fun q hq => hw q (List.mem_cons_of_mem p hq)) t0
              (qAdd u0 (mkRat 0 1)) t ht
          refine ⟨u, ?_, ?_⟩
          · exact hu
          · have hz : qAdd u0 (mkRat 0 1) = u0 := by
              rw [qAdd_eq]
              norm_num [Rat.mkRat_eq_div]
            rw [hz] at hb
            refine hb.trans ?_
            have : (ps.length : ℚ) / 100 ≤ ((p :: ps).length : ℚ) / 100 := by
              rw [List.length_cons]
              push_cast
              linarith
            linarith
      | some r =>
          simp only [hc] at ht
          obtain ⟨s1, hsc, hwc⟩ := calculateCriteriaScore_score_wc no p cs r hc
          cases s1 with
          | none =>
              exfalso
              rw [hsc] at ht
              have hnone : jsAdd (some t0) (jsMul (jsRound2 none) (some p.weight)) = none := rfl
              rw [hnone, c6_stepT_none cs no ps] at ht
              exact absurd ht (by simp)
          | some s =>
              rw [hsc] at ht
              have hstep : jsAdd (some t0)
                  (jsMul (jsRound2 (some s)) (some p.weight))
                  = some (qAdd t0 (qMul (roundToDecimals2 s) p.weight)) := rfl
              rw [hstep] at ht
              obtain ⟨u, hu, hb⟩ :=
                ih (fun q hq => hw q (List.mem_cons_of_mem p hq))
                  (qAdd t0 (qMul (roundToDecimals2 s) p.weight))
                  (qAdd u0 (roundToDecimals2 (qMul s p.weight))) t ht
              refine ⟨u, ?_, ?_⟩
              · show (ps.map _).foldl _
                    (jsAdd (some u0) r.reason.weightContribution) = some u
                rw [hwc]
                exact hu
              · have hkey : qAdd t0 (qMul (roundToDecimals2 s) p.weight)
                    - qAdd u0 (roundToDecimals2 (qMul s p.weight))
                    = (t0 - u0) + ((roundToDecimals2 s - s) * p.weight
                        + (s * p.weight - roundToDecimals2 (s * p.weight))) := by
                  rw [qAdd_eq, qAdd_eq, qMul_eq, qMul_eq]
                  ring
                have h3 : |(roundToDecimals2 s - s) * p.weight| ≤ 1/200 := by
                  rw [abs_mul, abs_of_nonneg hw0]
                  calc |roundToDecimals2 s - s| * p.weight
                      ≤ (1/200) * 1 :=
                        mul_le_mul (roundToDecimals2_err s) hw1 hw0 (by norm_num)
                  _ = 1/200 := by norm_num
                have h4 : |s * p.weight - roundToDecimals2 (s * p.weight)| ≤ 1/200 := by
                  rw [abs_sub_comm]
                  have := roundToDecimals2_err (qMul s p.weight)
                  rw [qMul_eq] at this
                  exact this
                have hB : |qAdd t0 (qMul (roundToDecimals2 s) p.weight)
                    - qAdd u0 (roundToDecimals2 (qMul s p.weight))|
                    ≤ |t0 - u0| + 1/100 := by
                  rw [hkey]
                  have habs := abs_add (t0 - u0)
                    ((roundToDecimals2 s - s) * p.weight
                      + (s * p.weight - roundToDecimals2 (s * p.weight)))
                  have habs2 := abs_add ((roundToDecimals2 s - s) * p.weight)
                    (s * p.weight - roundToDecimals2 (s * p.weight))
                  linarith
                refine hb.trans ?_
                have hlen : ((p :: ps).length : ℚ) = (ps.length : ℚ) + 1 := by
                  rw [List.length_cons]
                  push_cast
                  ring
                rw [hlen]
                have : ((ps.length : ℚ) + 1) / 100 = (ps.length : ℚ) / 100 + 1/100 := by
                  ring
                linarith

theorem getD_zero_mem {α : Type} (d : α) (l : List α) (h : 0 < l.length) :
    l.getD 0 d ∈ l := by
  cases l with
  | nil => simp at h
  | cons a t => simp [List.getD]

/-- Claim C6 (amended): for every scored option produced by
`calculateWeightedScores` under weights in [0,1], if both the returned
`totalScore` and the sum of the reasons' `weightContribution` values are
actual numbers, they differ by at most (2n+1)/200 where n is the number of
priorities — not by the claimed fixed 0.01, which three priorities already
exceed. -/
theorem claim6_totalscore_amended (options : List EOption) (priorities : List Priority)
    (hw : ∀ p ∈ priorities, 0 ≤ p.weight ∧ p.weight ≤ 1)
    (so : ScoredOption) (hso : so ∈ calculateWeightedScores options priorities)
    (t u : ℚ) (ht : so.totalScore = some t)
    (hu : sumWeightContributions so.reasons = some u) :
    |t - u| ≤ (2 * (priorities.length : ℚ) + 1) / 200 := by
  rw [calculateWeightedScores] at hso
  obtain ⟨no, hno, hsoe⟩ := List.mem_map.mp hso
  subst hsoe
  have htot : (scoreOne (calculateCriteriaStatistics options priorities) priorities no).totalScore
      = jsRound2 ((priorities.foldl
          (scoreStep (calculateCriteriaStatistics options priorities) no)
          ⟨[], [], some (mkRat 0 1)⟩).total) := rfl
  have hreas : (scoreOne (calculateCriteriaStatistics options priorities) priorities no).reasons
      = (priorities.foldl (scoreStep (calculateCriteriaStatistics options priorities) no)
          ⟨[], [], some (mkRat 0 1)⟩).reasons := rfl
  rw [htot, scoreFold_total] at ht
  rw [hreas, scoreFold_reasons] at hu
  cases hT : priorities.foldl (fun t p =>
      match calculateCriteriaScore no p (calculateCriteriaStatistics options priorities) with
      | some r => jsAdd t (jsMul r.score (some p.weight))
      | none => t) (some (mkRat 0 1)) with
  | none =>
      rw [hT] at ht
      exact absurd ht (by simp [jsRound2])
  | some t1 =>
      rw [hT] at ht
      have ht1 : t = roundToDecimals2 t1 := by
        have : jsRound2 (some t1) = some (roundToDecimals2 t1) := rfl
        rw [this, Option.some_inj] at ht
        exact ht.symm
      obtain ⟨u1, hu1, hb⟩ := c6_fold (calculateCriteriaStatistics options priorities) no
        priorities hw (mkRat 0 1) (mkRat 0 1) t1 hT
      have hu2 : (priorities.map (fun p =>
          match calculateCriteriaScore no p (calculateCriteriaStatistics options priorities) with
          | some r => r.reason
          | none => missingReason p no.base.name)).foldl
            (fun t r => jsAdd t r.weightContribution) (some (mkRat 0 1)) = some u := hu
      have hequ : u1 = u := Option.some_inj.mp (hu1.symm.trans hu2)
      have hz : |(mkRat 0 1 : ℚ) - mkRat 0 1| = 0 := by
        norm_num [Rat.mkRat_eq_div]
      rw [hz] at hb
      have herr := roundToDecimals2_err t1
      have htri := abs_sub_le (roundToDecimals2 t1) t1 u1
      rw [ht1, ← hequ]
      linarith

theorem claim6_totalscore_amended_witness :
    (∀ p ∈ scenarioAPriorities, 0 ≤ p.weight ∧ p.weight ≤ 1)
    ∧ ((calculateWeightedScores scenarioAOptions scenarioAPriorities).getD 0
          ⟨"", "", none, [], [], ⟨true, [], []⟩, none⟩
        ∈ calculateWeightedScores scenarioAOptions scenarioAPriorities)
    ∧ |mkRat 60 1 - mkRat 60 1| ≤ (2 * (scenarioAPriorities.length : ℚ) + 1) / 200 :=
  ⟨by decide,
   getD_zero_mem _ _ (by decide),
   claim6_totalscore_amended scenarioAOptions scenarioAPriorities (by decide)
     ((calculateWeightedScores scenarioAOptions scenarioAPriorities).getD 0
       ⟨"", "", none, [], [], ⟨true, [], []⟩, none⟩)
     (getD_zero_mem _ _ (by decide)) (mkRat 60 1) (mkRat 60 1) (by decide) (by decide)⟩


theorem lookupField_upsert_self (l : List (String × JSON)) (k : String) (v : JSON) :
    lookupField (upsert l k v) k = some v := by
  induction l with
  | nil => simp [upsert, lookupField]
  | cons e rest ih =>
      obtain ⟨ek, ev⟩ := e
      by_cases he : ek = k
      · subst he
        simp [upsert, lookupField]
      · simp only [upsert, if_neg he, lookupField]
        exact ih

theorem getNestedValue_empty (v : JSON) : getNestedValue v "" = none := rfl

theorem getPath_nil (cur : Option JSON) : getPath cur [] = cur := by
  cases cur with
  | none => rfl
  | some v => cases v <;> rfl

theorem getNestedValue_obj_single (fl : List (String × JSON)) (c : String)
    (hc : c ≠ "") (hs : splitDot c = [c]) :
    getNestedValue (JSON.obj fl) c = lookupField fl c := by
  rw [getNestedValue, if_neg hc, hs]
  exact getPath_nil (lookupField fl c)

theorem setNestedValue_obj_single (fl : List (String × JSON)) (c : String) (x : JSON)
    (hc : c ≠ "") (hs : splitDot c = [c]) :
    setNestedValue (JSON.obj fl) c x = JSON.obj (upsert fl c x) := by
  rw [setNestedValue, if_neg hc, hs]
  rfl

theorem normStepFields_none (ranges : List (String × RangeInfo)) (o : EOption)
    (fl : List (String × JSON)) (p : Priority)
    (hrv : getNestedValue o.features p.criteria = none) :
    normStepFields ranges o fl p = fl := by
  unfold normStepFields
  rw [hrv]

theorem normStepFields_norange (ranges : List (String × RangeInfo)) (o : EOption)
    (fl : List (String × JSON)) (p : Priority) (rv : JSON)
    (hrv : getNestedValue o.features p.criteria = some rv)
    (hrg : lookupField ranges p.criteria = none) :
    normStepFields ranges o fl p = fl := by
  unfold normStepFields
  rw [hrv, hrg]

theorem normStepFields_pos (ranges : List (String × RangeInfo)) (o : EOption)
    (fl : List (String × JSON)) (p : Priority) (rv : JSON) (rg : RangeInfo)
    (hrv : getNestedValue o.features p.criteria = some rv)
    (hrg : lookupField ranges p.criteria = some rg)
    (hpos : qLtB (mkRat 0 1) rg.range = true) :
    normStepFields ranges o fl p
      = upsert fl p.criteria
          (match jsToNumber rv with
           | some q => JSON.num (qDiv (qSub q rg.min) rg.range)
           | none => JSON.nan) := by
  unfold normStepFields
  rw [hrv, hrg]
  exact if_pos hpos

theorem normStepFields_negr (ranges : List (String × RangeInfo)) (o : EOption)
    (fl : List (String × JSON)) (p : Priority) (rv : JSON) (rg : RangeInfo)
    (hrv : getNestedValue o.features p.criteria = some rv)
    (hrg : lookupField ranges p.criteria = some rg)
    (hpos : ¬ qLtB (mkRat 0 1) rg.range = true) :
    normStepFields ranges o fl p = fl := by
  unfold normStepFields
  rw [hrv, hrg]
  exact if_neg hpos

theorem normalizeOne_fold_obj (ranges : List (String × RangeInfo)) (o : EOption) :
    ∀ (ps : List Priority) (fl : List (String × JSON)),
    (∀ q ∈ ps, splitDot q.criteria = [q.criteria]) →
    ps.foldl (fun nf p =>
        match getNestedValue o.features p.criteria, lookupField ranges p.criteria with
        | some rv, some rg =>
            if qLtB (mkRat 0 1) rg.range then
              setNestedValue nf p.criteria
                (match jsToNumber rv with
                 | some q => JSON.num (qDiv (qSub q rg.min) rg.range)
                 | none => JSON.nan)
            else nf
        | _, _ => nf) (JSON.obj fl)
      = JSON.obj (ps.foldl (normStepFields ranges o) fl) := by
  intro ps
  induction ps with
  | nil => intro fl _; rfl
  | cons p ps ih =>
      intro fl hs
      have hs' : ∀ q ∈ ps, splitDot q.criteria = [q.criteria] :=
        fun q hq => hs q (List.mem_cons_of_mem p hq)
      simp only [List.foldl_cons]
      cases hrv : getNestedValue o.features p.criteria with
      | none =>
          rw [normStepFields_none ranges o fl p hrv]
          exact ih fl hs'
      | some rv =>
          cases hrg : lookupField ranges p.criteria with
          | none =>
              rw [normStepFields_norange ranges o fl p rv hrv hrg]
              exact ih fl hs'
          | some rg =>
              have hc : p.criteria ≠ "" := by
                intro h
                rw [h, getNestedValue_empty] at hrv
                cases hrv
              by_cases hpos : qLtB (mkRat 0 1) rg.range = true
              · rw [normStepFields_pos ranges o fl p rv rg hrv hrg hpos]
                show List.foldl _
                    (if qLtB (mkRat 0 1) rg.range then
                      setNestedValue (JSON.obj fl) p.criteria
                        (match jsToNumber rv with
                         | some q => JSON.num (qDiv (qSub q rg.min) rg.range)
                         | none => JSON.nan)
                    else JSON.obj fl) ps
                  = JSON.obj (List.foldl _
                    (upsert fl p.criteria
                        (match jsToNumber rv with
                         | some q => JSON.num (qDiv (qSub q rg.min) rg.range)
                         | none => JSON.nan)) ps)
                rw [if_pos hpos,
                  setNestedValue_obj_single fl p.criteria _ hc (hs p (List.mem_cons_self p ps))]
                exact ih _ hs'
              · rw [normStepFields_negr ranges o fl p rv rg hrv hrg hpos]
                show List.foldl _
                    (if qLtB (mkRat 0 1) rg.range then
                      setNestedValue (JSON.obj fl) p.criteria
                        (match jsToNumber rv with
                         | some q => JSON.num (qDiv (qSub q rg.min) rg.range)
                         | none => JSON.nan)
                    else JSON.obj fl) ps
                  = JSON.obj (List.foldl _ fl ps)
                rw [if_neg hpos]
                exact ih fl hs'

theorem normStepFields_lookup_ne (ranges : List (String × RangeInfo)) (o : EOption)
    (fl : List (String × JSON)) (q : Priority) (c : String) (hne : c ≠ q.criteria) :
    lookupField (normStepFields ranges o fl q) c = lookupField fl c := by
  unfold normStepFields
  cases getNestedValue o.features q.criteria with
  | none => rfl
  | some rv =>
      cases lookupField ranges q.criteria with
      | none => rfl
      | some rg =>
          by_cases hpos : qLtB (mkRat 0 1) rg.range = true
          · show lookupField
                (if qLtB (mkRat 0 1) rg.range then
                  upsert fl q.criteria
                    (match jsToNumber rv with
                     | some x => JSON.num (qDiv (qSub x rg.min) rg.range)
                     | none => JSON.nan)
                 else fl) c = lookupField fl c
            rw [if_pos hpos]
            exact lookupField_upsert_ne _ hne
          · show lookupField
                (if qLtB (mkRat 0 1) rg.range then
                  upsert fl q.criteria
                    (match jsToNumber rv with
                     | some x => JSON.num (qDiv (qSub x rg.min) rg.range)
                     | none => JSON.nan)
                 else fl) c = lookupField fl c
            rw [if_neg hpos]

theorem normFields_preserve (ranges : List (String × RangeInfo)) (o : EOption) :
    ∀ (ps : List Priority) (fl : List (String × JSON)) (c : String),
    (∀ q ∈ ps, c ≠ q.criteria) →
    lookupField (ps.foldl (normStepFields ranges o) fl) c = lookupField fl c := by
  intro ps
  induction ps with
  | nil => intro fl c _; rfl
  | cons q ps ih =>
      intro fl c hne
      simp only [List.foldl_cons]
      rw [ih (normStepFields ranges o fl q) c
        (fun r hr => hne r (List.mem_cons_of_mem q hr))]
      exact normStepFields_lookup_ne ranges o fl q c (hne q (List.mem_cons_self q ps))

theorem normFields_read (ranges : List (String × RangeInfo)) (o : EOption) :
    ∀ (ps : List Priority) (fl : List (String × JSON)) (p : Priority), p ∈ ps →
    (ps.map Priority.criteria).Nodup →
    lookupField (ps.foldl (normStepFields ranges o) fl) p.criteria
      = match getNestedValue o.features p.criteria, lookupField ranges p.criteria with
        | some rv, some rg =>
            if qLtB (mkRat 0 1) rg.range then
              some (match jsToNumber rv with
                    | some q => JSON.num (qDiv (qSub q rg.min) rg.range)
                    | none => JSON.nan)
            else lookupField fl p.criteria
        | _, _ => lookupField fl p.criteria := by
  intro ps
  induction ps with
  | nil => intro fl p hp _; simp at hp
  | cons q ps ih =>
      intro fl p hp hnd
      simp only [List.map_cons, List.nodup_cons] at hnd
      simp only [List.foldl_cons]
      rcases List.mem_cons.mp hp with rfl | hp'
      · have hne : ∀ r ∈ ps, p.criteria ≠ r.criteria := by
          intro r hr he
          exact hnd.1 (he ▸ List.mem_map_of_mem Priority.criteria hr)
        rw [normFields_preserve ranges o ps (normStepFields ranges o fl p) p.criteria hne]
        cases hrv : getNestedValue o.features p.criteria with
        | none => rw [normStepFields_none ranges o fl p hrv]
        | some rv =>
            cases hrg : lookupField ranges p.criteria with
            | none => rw [normStepFields_norange ranges o fl p rv hrv hrg]
            | some rg =>
                by_cases hpos : qLtB (mkRat 0 1) rg.range = true
                · rw [normStepFields_pos ranges o fl p rv rg hrv hrg hpos,
                    lookupField_upsert_self]
                  show _ = if qLtB (mkRat 0 1) rg.range then _ else _
                  rw [if_pos hpos]
                · rw [normStepFields_negr ranges o fl p rv rg hrv hrg hpos]
                  show lookupField fl p.criteria
                    = if qLtB (mkRat 0 1) rg.range then _ else lookupField fl p.criteria
                  rw [if_neg hpos]
      · have hqp : p.criteria ≠ q.criteria := by
          intro he
          exact hnd.1 (he ▸ List.mem_map_of_mem Priority.criteria hp')
        rw [ih (normStepFields ranges o fl q) p hp' hnd.2]
        cases hrv : getNestedValue o.features p.criteria with
        | none => exact normStepFields_lookup_ne ranges o fl q p.criteria hqp
        | some rv =>
            cases hrg : lookupField ranges p.criteria with
            | none => exact normStepFields_lookup_ne ranges o fl q p.criteria hqp
            | some rg =>
                by_cases hpos : qLtB (mkRat 0 1) rg.range = true
                · show (if qLtB (mkRat 0 1) rg.range then
                      some (match jsToNumber rv with
                            | some x => JSON.num (qDiv (qSub x rg.min) rg.range)
                            | none => JSON.nan)
                    else lookupField (normStepFields ranges o fl q) p.criteria)
                    = (if qLtB (mkRat 0 1) rg.range then
                      some (match jsToNumber rv with
                            | some x => JSON.num (qDiv (qSub x rg.min) rg.range)
                            | none => JSON.nan)
                    else lookupField fl p.criteria)
                  rw [if_pos hpos, if_pos hpos]
                · show (if qLtB (mkRat 0 1) rg.range then
                      some (match jsToNumber rv with
                            | some x => JSON.num (qDiv (qSub x rg.min) rg.range)
                            | none => JSON.nan)
                    else lookupField (normStepFields ranges o fl q) p.criteria)
                    = (if qLtB (mkRat 0 1) rg.range then
                      some (match jsToNumber rv with
                            | some x => JSON.num (qDiv (qSub x rg.min) rg.range)
                            | none => JSON.nan)
                    else lookupField fl p.criteria)
                  rw [if_neg hpos, if_neg hpos]
                  exact normStepFields_lookup_ne ranges o fl q p.criteria hqp

theorem mem_upsert {l : List (String × β)} {k k' : String} {r v : β}
    (h : (k, r) ∈ upsert l k' v) : (k, r) ∈ l ∨ (k = k' ∧ r = v) := by
  induction l with
  | nil =>
      simp only [upsert, List.mem_singleton] at h
      right
      exact ⟨congrArg Prod.fst h, congrArg Prod.snd h⟩
  | cons e rest ih =>
      obtain ⟨ek, ev⟩ := e
      by_cases he : ek = k'
      · subst he
        simp only [upsert, if_pos rfl] at h
        rcases List.mem_cons.mp h with he2 | h2
        · right
          exact ⟨congrArg Prod.fst he2, congrArg Prod.snd he2⟩
        · left
          exact List.mem_cons_of_mem _ h2
      · simp only [upsert, if_neg he] at h
        rcases List.mem_cons.mp h with he2 | h2
        · left
          exact he2 ▸ List.mem_cons_self _ _
        · rcases ih h2 with h3 | h3
          · exact Or.inl (List.mem_cons_of_mem _ h3)
          · exact Or.inr h3

theorem lookupField_mem {l : List (String × β)} {k : String} {r : β}
    (h : lookupField l k = some r) : (k, r) ∈ l := by
  induction l with
  | nil => simp [lookupField] at h
  | cons e rest ih =>
      obtain ⟨ek, ev⟩ := e
      by_cases he : ek = k
      · subst he
        simp [lookupField] at h
        subst h
        exact List.mem_cons_self _ _
      · simp only [lookupField, if_neg he] at h
        exact List.mem_cons_of_mem _ (ih h)

theorem criteriaRanges_inv (options : List EOption) :
    ∀ (ps : List Priority) (acc : List (String × RangeInfo)),
    (∀ e ∈ acc, ∃ v vs, numericValuesFor options e.1 = v :: vs
      ∧ e.2 = ⟨listMin v vs, listMax v vs, qSub (listMax v vs) (listMin v vs)⟩) →
    ∀ e ∈ ps.foldl
      (fun acc p =>
        match numericValuesFor options p.criteria with
        | [] => acc
        | v :: vs => upsert acc p.criteria
            ⟨listMin v vs, listMax v vs, qSub (listMax v vs) (listMin v vs)⟩) acc,
    ∃ v vs, numericValuesFor options e.1 = v :: vs
      ∧ e.2 = ⟨listMin v vs, listMax v vs, qSub (listMax v vs) (listMin v vs)⟩ := by
  intro ps
  induction ps with
  | nil => intro acc hacc e he; exact hacc e he
  | cons p ps ih =>
      intro acc hacc e he
      simp only [List.foldl_cons] at he
      cases hnv : numericValuesFor options p.criteria with
      | nil =>
          rw [hnv] at he
          exact ih acc hacc e he
      | cons v vs =>
          rw [hnv] at he
          refine ih _ ?_ e he
          intro e' he'
          obtain ⟨k', r'⟩ := e'
          rcases mem_upsert he' with h2 | ⟨hk, hr⟩
          · exact hacc _ h2
          · subst hk
            exact ⟨v, vs, by rw [hr, hnv], by rw [hr]⟩

theorem criteriaRanges_spec (options : List EOption) (ps : List Priority) (c : String)
    (rg : RangeInfo) (h : lookupField (criteriaRanges options ps) c = some rg) :
    ∃ v vs, numericValuesFor options c = v :: vs
      ∧ rg = ⟨listMin v vs, listMax v vs, qSub (listMax v vs) (listMin v vs)⟩ := by
  have := criteriaRanges_inv options ps [] (by intro e he; simp at he) (c, rg)
    (by rw [criteriaRanges] at h; exact lookupField_mem h)
  exact this

theorem listMin_le (vs : List ℚ) : ∀ (v : ℚ),
    listMin v vs ≤ v ∧ ∀ q ∈ vs, listMin v vs ≤ q := by
  induction vs with
  | nil => intro v; exact ⟨le_refl v, by simp⟩
  | cons w ws ih =>
      intro v
      have hstep : listMin v (w :: ws) = listMin (qMinQ v w) ws := rfl
      obtain ⟨h1, h2⟩ := ih (qMinQ v w)
      constructor
      · rw [hstep]
        refine le_trans h1 ?_
        rw [qMinQ_eq]
        exact min_le_left v w
      · intro q hq
        rcases List.mem_cons.mp hq with rfl | hq'
        · rw [hstep]
          refine le_trans h1 ?_
          rw [qMinQ_eq]
          exact min_le_right v q
        · rw [hstep]
          exact h2 q hq'

theorem le_listMax (vs : List ℚ) : ∀ (v : ℚ),
    v ≤ listMax v vs ∧ ∀ q ∈ vs, q ≤ listMax v vs := by
  induction vs with
  | nil => intro v; exact ⟨le_refl v, by simp⟩
  | cons w ws ih =>
      intro v
      have hstep : listMax v (w :: ws) = listMax (qMaxQ v w) ws := rfl
      obtain ⟨h1, h2⟩ := ih (qMaxQ v w)
      constructor
      · rw [hstep]
        refine le_trans ?_ h1
        rw [qMaxQ_eq]
        exact le_max_left v w
      · intro q hq
        rcases List.mem_cons.mp hq with rfl | hq'
        · rw [hstep]
          refine le_trans ?_ h1
          rw [qMaxQ_eq]
          exact le_max_right v q
        · rw [hstep]
          exact h2 q hq'

theorem mem_numericValuesFor (options : List EOption) (c : String) (o : EOption)
    (ho : o ∈ options) (rv : JSON) (hrv : getNestedValue o.features c = some rv)
    (hnull : rv ≠ JSON.null) (q : ℚ) (hq : jsToNumber rv = some q) :
    q ∈ numericValuesFor options c := by
  rw [numericValuesFor]
  refine List.mem_filterMap.mpr ⟨o, ho, ?_⟩
  rw [hrv]
  cases rv with
  | null => exact absurd rfl hnull
  | num x => exact hq
  | nan => exact hq
  | bool b => exact hq
  | str s => exact hq
  | arr xs => exact hq
  | obj fields => exact hq

/-- Claim C4 (amended): for single-segment, pairwise-distinct criteria over
options with object features, the normalized clone keeps the unmodified raw
value at a criterion path whenever the criterion has no range entry or a
non-positive range (in particular when max equals min), and replaces it by
(Number(raw)-min)/range — NaN if the raw value does not coerce — exactly
when the range is positive; the range entry is max-min over the coerced
numeric values, and the normalized value lies in [0,1] for those raw
values that entered the min/max scan (non-null, numerically coercible) —
not for every raw value, as the original claim asserted. -/
theorem claim4_normalization_amended (options : List EOption) (priorities : List Priority)
    (hsingle : ∀ q ∈ priorities, splitDot q.criteria = [q.criteria])
    (hnd : (priorities.map Priority.criteria).Nodup)
    (o : EOption) (ho : o ∈ options)
    (fl : List (String × JSON)) (hobj : o.features = JSON.obj fl)
    (p : Priority) (hp : p ∈ priorities) :
    (getNestedValue
        (normalizeOne (criteriaRanges options priorities) priorities o).normalizedFeatures
        p.criteria
      = match getNestedValue o.features p.criteria,
              lookupField (criteriaRanges options priorities) p.criteria with
        | some rv, some rg =>
            if qLtB (mkRat 0 1) rg.range then
              some (match jsToNumber rv with
                    | some q => JSON.num (qDiv (qSub q rg.min) rg.range)
                    | none => JSON.nan)
            else getNestedValue o.features p.criteria
        | _, _ => getNestedValue o.features p.criteria)
    ∧ (∀ rg, lookupField (criteriaRanges options priorities) p.criteria = some rg →
        rg.range = qSub rg.max rg.min
        ∧ (qLtB (mkRat 0 1) rg.range = true ↔ rg.min < rg.max))
    ∧ (∀ rg q, lookupField (criteriaRanges options priorities) p.criteria = some rg →
        qLtB (mkRat 0 1) rg.range = true →
        q ∈ numericValuesFor options p.criteria →
        0 ≤ qDiv (qSub q rg.min) rg.range ∧ qDiv (qSub q rg.min) rg.range ≤ 1)
    ∧ (∀ rv q, getNestedValue o.features p.criteria = some rv → rv ≠ JSON.null →
        jsToNumber rv = some q → q ∈ numericValuesFor options p.criteria) := by
  refine ⟨?_, ?_, ?_, ?_⟩
  · have hnf : (normalizeOne (criteriaRanges options priorities) priorities o).normalizedFeatures
        = JSON.obj (priorities.foldl (normStepFields (criteriaRanges options priorities) o) fl) := by
      show priorities.foldl _ o.features = _
      nth_rewrite 2 [hobj]
      exact normalizeOne_fold_obj (criteriaRanges options priorities) o priorities fl hsingle
    by_cases hc : p.criteria = ""
    · rw [hc, getNestedValue_empty, getNestedValue_empty]
    · rw [hnf, getNestedValue_obj_single _ _ hc (hsingle p hp),
        normFields_read (criteriaRanges options priorities) o priorities fl p hp hnd]
      have hof : getNestedValue o.features p.criteria = lookupField fl p.criteria := by
        rw [hobj]
        exact getNestedValue_obj_single fl p.criteria hc (hsingle p hp)
      rw [hof]
  · intro rg hrg
    obtain ⟨v, vs, hnv, rfl⟩ := criteriaRanges_spec options priorities p.criteria rg hrg
    refine ⟨rfl, ?_⟩
    show qLtB (mkRat 0 1) (qSub (listMax v vs) (listMin v vs)) = true
      ↔ listMin v vs < listMax v vs
    rw [qLtB_iff, qSub_eq]
    have h0 : (mkRat 0 1 : ℚ) = 0 := by norm_num [Rat.mkRat_eq_div]
    rw [h0]
    exact sub_pos
  · intro rg q hrg hpos hq
    obtain ⟨v, vs, hnv, rfl⟩ := criteriaRanges_spec options priorities p.criteria rg hrg
    rw [hnv] at hq
    have hmq : listMin v vs ≤ q := by
      rcases List.mem_cons.mp hq with rfl | hq'
      · exact (listMin_le vs q).1
      · exact (listMin_le vs v).2 q hq'
    have hqM : q ≤ listMax v vs := by
      rcases List.mem_cons.mp hq with rfl | hq'
      · exact (le_listMax vs q).1
      · exact (le_listMax vs v).2 q hq'
    have hpos' : (0 : ℚ) < listMax v vs - listMin v vs := by
      have h0 : (mkRat 0 1 : ℚ) = 0 := by norm_num [Rat.mkRat_eq_div]
      rw [qLtB_iff, h0] at hpos
      show (0 : ℚ) < listMax v vs - listMin v vs
      calc (0 : ℚ) < qSub (listMax v vs) (listMin v vs) := hpos
      _ = listMax v vs - listMin v vs := qSub_eq _ _
    show 0 ≤ qDiv (qSub q (listMin v vs)) (qSub (listMax v vs) (listMin v vs))
      ∧ qDiv (qSub q (listMin v vs)) (qSub (listMax v vs) (listMin v vs)) ≤ 1
    rw [qDiv_eq, qSub_eq, qSub_eq]
    constructor
    · exact div_nonneg (sub_nonneg.mpr hmq) (le_of_lt hpos')
    · rw [div_le_one hpos']
      exact sub_le_sub_right hqM (listMin v vs)
  · intro rv q hrv hnull hq
    exact mem_numericValuesFor options p.criteria o ho rv hrv hnull q hq

theorem claim4_normalization_amended_witness :
    (∀ q ∈ scenarioAPriorities, splitDot q.criteria = [q.criteria])
    ∧ ((scenarioAPriorities.map Priority.criteria).Nodup)
    ∧ getNestedValue (normalizeOne (criteriaRanges scenarioAOptions scenarioAPriorities)
          scenarioAPriorities
          ⟨"option1", "Option 1", JSON.obj [("cost", JSON.num (mkRat 100 1)),
            ("performance", JSON.num (mkRat 80 1))], none⟩).normalizedFeatures "cost"
        = some (JSON.num (mkRat 0 1)) :=
  ⟨by decide, by decide,
   ((claim4_normalization_amended scenarioAOptions scenarioAPriorities (by decide) (by decide)
       ⟨"option1", "Option 1", JSON.obj [("cost", JSON.num (mkRat 100 1)),
         ("performance", JSON.num (mkRat 80 1))], none⟩
       (List.mem_cons_self _ _)
       [("cost", JSON.num (mkRat 100 1)), ("performance", JSON.num (mkRat 80 1))] rfl
       ⟨"cost", mkRat 6 10, "minimize"⟩ (List.mem_cons_self _ _)).1).trans rfl⟩
